import Mathlib

/-! # Modular app loader (`modular_app_loader.h`): registry, code loader, lifecycle

A shallow embedding of the registry/loader part of `src/modular_app_loader.h`.

Modelling conventions
* C strings and Arduino `String`s are `List Char`, one `Char` per byte. An
  Arduino `String` read from a file may contain NUL bytes; where the code
  hands `c_str()` to a C string function (`strncpy`, `snprintf` with `%s`),
  that function reads the bytes before the first NUL (`cstr`). The values
  returned by `file.name()` and `file.path()` are C strings.
* `int` variables (`appCount`, `currentAppIndex`, `appIndex`) are `Int`; the
  registry array `appRegistry[MAX_APPS]` is a total map from the `int` index
  to the entry (only indices `0 .. MAX_APPS-1` are ever touched by the code).
* Pointers are `Option Nat` (`none` is `NULL`); a heap address is an
  allocation identifier that is never reused.
* The SD card, and whether `malloc` grants the next request, are inputs of
  each operation.
* `Serial` output and LVGL widget calls have no effect on the modelled state
  and are left out.
-/

namespace ModularAppLoader

/-! ## Constants -/

/-- `#define MAX_APPS 20` -/
def MAX_APPS : Int := 20

/-- `#define MAX_APP_NAME 32` -/
def MAX_APP_NAME : Nat := 32

/-- `#define MAX_APP_CODE_SIZE 50000` -/
def MAX_APP_CODE_SIZE : Nat := 50000

/-! ## Arduino `String` operations used by the scanner -/

/-- C `isspace` in the default locale. -/
def isSpace (c : Char) : Bool :=
  c = ' ' || c = '\t' || c = '\n' || c = Char.ofNat 11 || c = Char.ofNat 12 || c = '\r'

/-- `String::trim()`: strips leading and trailing `isspace` characters. -/
def trim (l : List Char) : List Char :=
  ((l.dropWhile isSpace).reverse.dropWhile isSpace).reverse

/-- `String::startsWith(p)`. -/
def startsWith (l p : List Char) : Bool := p.isPrefixOf l

/-- `String::endsWith(p)`. -/
def endsWith (l p : List Char) : Bool := p.reverse.isPrefixOf l.reverse

/-- `String::substring(from)`: the tail of the string from index `from`. -/
def substring (l : List Char) (start : Nat) : List Char := l.drop start

/-- What a C string function reads from `c_str()`: the bytes before the first
NUL byte. -/
def cstr (l : List Char) : List Char := l.takeWhile (fun c => decide (c ≠ Char.ofNat 0))

/-- The loop `while (manifest.available()) line = manifest.readStringUntil('\n')`:
the successive values of `line`. `cur` holds (reversed) the characters of the
line being read. A read is only started when a character is available, so the
end of the data closes a line only if that line has consumed a character. -/
def readLinesAux : List Char → List Char → List (List Char)
  | [], [] => []
  | cur, [] => [cur.reverse]
  | cur, c :: cs => if c = '\n' then cur.reverse :: readLinesAux [] cs
                    else readLinesAux (c :: cur) cs

/-- The lines delivered by the `readStringUntil` loop over a file's bytes. -/
def readLines (content : List Char) : List (List Char) := readLinesAux [] content

/-! ## Manifest parsing (`scanForModularApps`, lines 78-96) -/

/-- The four local variables `name`, `desc`, `codefile`, `enabled`. -/
structure ManifestFields where
  name : List Char
  desc : List Char
  codefile : List Char
  enabled : Bool
deriving DecidableEq, Repr

/-- Initial values: `name = ""; desc = ""; codefile = ""; enabled = true`. -/
def ManifestFields.initial : ManifestFields :=
  { name := [], desc := [], codefile := [], enabled := true }

/-- One iteration of the line loop: trim, then the `if / else if` chain. -/
def parseLine (m : ManifestFields) (raw : List Char) : ManifestFields :=
  let line := trim raw
  if startsWith line "name=".toList then { m with name := substring line 5 }
  else if startsWith line "description=".toList then { m with desc := substring line 12 }
  else if startsWith line "codefile=".toList then { m with codefile := substring line 9 }
  else if startsWith line "enabled=".toList then
    { m with enabled := decide (substring line 8 = "true".toList) }
  else m

/-- The whole line loop over a manifest file. -/
def parseManifest (content : List Char) : ManifestFields :=
  (readLines content).foldl parseLine ManifestFields.initial

/-- The registration guard `name.length() > 0 && codefile.length() > 0 && enabled`. -/
def installable (m : ManifestFields) : Bool :=
  decide (m.name.length > 0) && decide (m.codefile.length > 0) && m.enabled

/-! ## Storage (`SD_MMC`, `fs::File`) -/

/-- A code file on the card. `content` is what is stored (so `size()` is its
length); `delivered` is how many bytes the card hands over before a
`read` stops (at least the length when the read does not fail). -/
structure CodeFile where
  content : List Char
  delivered : Nat

/-- `file.size()`. -/
def CodeFile.size (f : CodeFile) : Nat := f.content.length

/-- The bytes stored by `file.read(buf, n)`. -/
def CodeFile.read (f : CodeFile) (n : Nat) : List Char := f.content.take (min n f.delivered)

/-- One result of `root.openNextFile()`: `name()`, `path()`, `isDirectory()`,
and the bytes obtained by opening `path()` and reading it (empty when that
open fails, since `available()` is then false). -/
structure DirEntry where
  name : List Char
  path : List Char
  isDirectory : Bool
  content : List Char

/-- The outcome of `SD_MMC.open("/apps")`. -/
inductive AppsDir where
  | missing
  | notDirectory
  | directory (entries : List DirEntry)

/-- The card as the loader sees it: the `/apps` directory in iteration order
and `SD_MMC.open(path)` for code files (`none` when the open fails). -/
structure SDCard where
  apps : AppsDir
  openFile : List Char → Option CodeFile

/-- Inputs of an operation that may load code: the card and whether `malloc`
grants the request. -/
structure Env where
  sd : SDCard
  mallocOk : Bool

/-! ## Heap (`malloc` / `free`) -/

/-- The heap as the explicit set of live allocations: `live p` is the block at
address `p` (a cell is `none` until it is written), `next` the next fresh
address, `freed` the log of the addresses passed to `free`, latest first. -/
structure Heap where
  live : Nat → Option (List (Option Char))
  next : Nat
  freed : List Nat

/-- The empty heap. -/
def Heap.empty : Heap := { live := fun _ => none, next := 1, freed := [] }

/-- `malloc(n)`: `NULL` when refused, else a fresh uninitialised block. -/
def Heap.malloc (h : Heap) (granted : Bool) (n : Nat) : Option Nat × Heap :=
  if granted then
    (some h.next,
     { h with live := Function.update h.live h.next (some (List.replicate n none)),
              next := h.next + 1 })
  else (none, h)

/-- `free(p)`. -/
def Heap.free (h : Heap) (p : Nat) : Heap :=
  { h with live := Function.update h.live p none, freed := p :: h.freed }

/-- `file.read(p, n)` storing `bytes` at the start of block `p`. -/
def Heap.storeBytes (h : Heap) (p : Nat) (bytes : List Char) : Heap :=
  match h.live p with
  | some cells =>
    { h with live := Function.update h.live p (some (bytes.map some ++ cells.drop bytes.length)) }
  | none => h

/-- The assignment `p[i] = c`. -/
def Heap.storeAt (h : Heap) (p : Nat) (i : Nat) (c : Char) : Heap :=
  match h.live p with
  | some cells => { h with live := Function.update h.live p (some (cells.set i (some c))) }
  | none => h

/-! ## Registry state -/

/-- `struct ModularApp`. Function pointers and the buffer pointer are
`Option Nat`, `none` being `NULL`. -/
structure ModularApp where
  name : List Char
  description : List Char
  filepath : List Char
  enabled : Bool
  loaded : Bool
  setup : Option Nat
  loop : Option Nat
  cleanup : Option Nat
  codeBuffer : Option Nat
  codeSize : Nat
deriving DecidableEq, Repr

/-- A zero-initialised entry (static storage). -/
def ModularApp.zero : ModularApp :=
  { name := [], description := [], filepath := [], enabled := false, loaded := false,
    setup := none, loop := none, cleanup := none, codeBuffer := none, codeSize := 0 }

/-- The globals `appRegistry`, `appCount`, `currentAppIndex`, with the heap and
the log of the paths passed to `SD_MMC.open`, latest first. -/
structure State where
  appRegistry : Int → ModularApp
  appCount : Int
  currentAppIndex : Int
  heap : Heap
  sdOpens : List (List Char)

/-- The state at program start: `appCount = 0`, `currentAppIndex = -1`. -/
def State.initial : State :=
  { appRegistry := fun _ => ModularApp.zero, appCount := 0, currentAppIndex := -1,
    heap := Heap.empty, sdOpens := [] }

/-- Replaces the entry at `appIndex`. -/
def State.setApp (s : State) (appIndex : Int) (e : ModularApp) : State :=
  { s with appRegistry := Function.update s.appRegistry appIndex e }

/-- Records a call `SD_MMC.open(path)`. -/
def State.logOpen (s : State) (path : List Char) : State :=
  { s with sdOpens := path :: s.sdOpens }

/-! ## `scanForModularApps` -/

/-- The registration block (lines 100-117): writes the entry at index
`appCount` and increments `appCount`. `codeSize` is not assigned.
`strncpy(name, name.c_str(), MAX_APP_NAME - 1)` stores at most 31 bytes of the
C string and pads with NUL (byte 31 of the array is never written and stays
0); likewise `description` with 63; `snprintf(fullpath, 64, "/apps/%s", ...)`
keeps at most 63 bytes, which `strncpy(filepath, fullpath, 63)` copies. -/
def registerApp (m : ManifestFields) (s : State) : State :=
  let e := s.appRegistry s.appCount
  { s with
    appRegistry := Function.update s.appRegistry s.appCount
      { e with
        name := (cstr m.name).take (MAX_APP_NAME - 1)
        description := (cstr m.desc).take 63
        filepath := ("/apps/".toList ++ cstr m.codefile).take 63
        enabled := m.enabled
        loaded := false
        codeBuffer := none
        setup := none
        loop := none
        cleanup := none }
    appCount := s.appCount + 1 }

/-- The body of the directory loop for one entry (lines 69-119). -/
def scanEntry (file : DirEntry) (s : State) : State :=
  if !file.isDirectory && endsWith file.name ".manifest".toList then
    let s1 := s.logOpen file.path
    let m := parseManifest file.content
    if installable m then registerApp m s1 else s1
  else s

/-- The loop `while (file && appCount < MAX_APPS)` over the directory entries. -/
def scanLoop : List DirEntry → State → State
  | [], s => s
  | file :: rest, s => if s.appCount < MAX_APPS then scanLoop rest (scanEntry file s) else s

/-- `scanForModularApps()`. -/
def scanForModularApps (sd : SDCard) (s : State) : State :=
  let s0 := { s with appCount := 0 }.logOpen "/apps".toList
  match sd.apps with
  | AppsDir.directory entries => scanLoop entries s0
  | _ => s0

/-! ## `loadAppCode`, `unloadAppCode` -/

/-- `loadAppCode(appIndex)`: the returned `bool` and the state afterwards. -/
def loadAppCode (env : Env) (appIndex : Int) (s : State) : Bool × State :=
  if appIndex < 0 ∨ appIndex ≥ s.appCount then (false, s)
  else if (s.appRegistry appIndex).loaded then (true, s)
  else
    let e := s.appRegistry appIndex
    let s1 := s.logOpen e.filepath
    match env.sd.openFile e.filepath with
    | none => (false, s1)
    | some file =>
      let fileSize := file.size
      if fileSize > MAX_APP_CODE_SIZE then (false, s1)
      else
        match s1.heap.malloc env.mallocOk (fileSize + 1) with
        | (none, heap1) => (false, { s1 with heap := heap1 }.setApp appIndex { e with codeBuffer := none })
        | (some p, heap1) =>
          let heap2 := heap1.storeBytes p (file.read fileSize)
          let heap3 := heap2.storeAt p fileSize (Char.ofNat 0)
          (true, { s1 with heap := heap3 }.setApp appIndex
                   { e with codeBuffer := some p, codeSize := fileSize, loaded := true })

/-- `unloadAppCode(appIndex)`. -/
def unloadAppCode (appIndex : Int) (s : State) : State :=
  if appIndex < 0 ∨ appIndex ≥ s.appCount then s
  else if !(s.appRegistry appIndex).loaded then s
  else
    let e := s.appRegistry appIndex
    let s1 : State :=
      match e.codeBuffer with
      | some p => { s with heap := s.heap.free p }.setApp appIndex { e with codeBuffer := none }
      | none => s
    s1.setApp appIndex
      { s1.appRegistry appIndex with loaded := false, setup := none, loop := none, cleanup := none }

/-! ## Launcher (`launchModularApp`, BACK button, `createModularAppLauncher`) -/

/-- `launchModularApp(appIndex)` (lines 309-322; the rest builds widgets). -/
def launchModularApp (env : Env) (appIndex : Int) (s : State) : State :=
  if appIndex < 0 ∨ appIndex ≥ s.appCount then s
  else
    match loadAppCode env appIndex s with
    | (false, s1) => s1
    | (true, s1) => { s1 with currentAppIndex := appIndex }

/-- The close action of the BACK handler (lines 355-358). -/
def closeCurrentApp (s : State) : State :=
  if s.currentAppIndex ≥ 0 then
    { unloadAppCode s.currentAppIndex s with currentAppIndex := -1 }
  else s

/-- `createModularAppLauncher()`: rescans, then builds widgets. -/
def createModularAppLauncher (sd : SDCard) (s : State) : State := scanForModularApps sd s

/-- The BACK button callback, registered for `LV_EVENT_CLICKED` (lines 352-361):
the close action followed by `createModularAppLauncher()`. -/
def backButtonHandler (sd : SDCard) (s : State) : State :=
  createModularAppLauncher sd (closeCurrentApp s)

/-! ## Operation sequences -/

/-- The operations of the loader, each with its inputs. -/
inductive Action where
  | scan (sd : SDCard)
  | load (env : Env) (appIndex : Int)
  | unload (appIndex : Int)
  | launch (env : Env) (appIndex : Int)
  | back (sd : SDCard)

/-- The effect of one operation. -/
def step (s : State) : Action → State
  | Action.scan sd => scanForModularApps sd s
  | Action.load env i => (loadAppCode env i s).2
  | Action.unload i => unloadAppCode i s
  | Action.launch env i => launchModularApp env i s
  | Action.back sd => backButtonHandler sd s

/-- The state after a sequence of operations. -/
def run (s : State) (acts : List Action) : State := acts.foldl step s

/-- The states the program can be in: those obtained from the initial state
by a finite sequence of operations. -/
inductive Reachable : State → Prop where
  | initial : Reachable State.initial
  | next (s : State) (a : Action) : Reachable s → Reachable (step s a)

/-- An index accepted by the range check `appIndex < 0 || appIndex >= appCount`. -/
def State.validIndex (s : State) (i : Int) : Prop := 0 ≤ i ∧ i < s.appCount

instance (s : State) (i : Int) : Decidable (s.validIndex i) := by
  unfold State.validIndex; infer_instance

/-! ## Predicates used in the statements -/

/-- What a scan establishes for the entries below `appCount`. -/
def FreshBelow (s : State) : Prop :=
  0 ≤ s.appCount ∧ s.appCount ≤ MAX_APPS ∧
  ∀ i : Int, 0 ≤ i → i < s.appCount →
    (s.appRegistry i).enabled = true ∧ (s.appRegistry i).loaded = false ∧
    (s.appRegistry i).codeBuffer = none

/-- Below `appCount`, an entry holds a buffer exactly when it is loaded. -/
def Coherent (s : State) : Prop :=
  ∀ i : Int, s.validIndex i →
    ((s.appRegistry i).codeBuffer ≠ none ↔ (s.appRegistry i).loaded = true)

/-- Every buffer held by an entry is a live allocation that was never freed,
no two entries hold the same buffer, and no address was freed twice. -/
def Owned (s : State) : Prop :=
  (∀ (i : Int) (p : Nat), (s.appRegistry i).codeBuffer = some p →
      p < s.heap.next ∧ s.heap.live p ≠ none ∧ p ∉ s.heap.freed) ∧
  (∀ (i j : Int) (p : Nat), (s.appRegistry i).codeBuffer = some p →
      (s.appRegistry j).codeBuffer = some p → i = j) ∧
  (∀ p ∈ s.heap.freed, p < s.heap.next) ∧ s.heap.freed.Nodup

/-- The heap after a granted `malloc(n + 1)`, a read storing `bytes` and the
terminator store at offset `n` (see `loadedHeap_eq`). -/
def loadedHeap (h : Heap) (n : Nat) (bytes : List Char) : Heap :=
  { h with
    live := Function.update h.live h.next
      (some ((bytes.map some ++ (List.replicate (n + 1) none).drop bytes.length).set n
        (some (Char.ofNat 0))))
    next := h.next + 1 }

/-- At most one entry below `appCount` is loaded. -/
def AtMostOneLoaded (s : State) : Prop :=
  ∀ i j : Int, s.validIndex i → s.validIndex j →
    (s.appRegistry i).loaded = true → (s.appRegistry j).loaded = true → i = j

/-- The operations driven by the launcher screens: the scan, a launch, and
the BACK button. -/
def Action.isLauncherOp : Action → Bool
  | Action.scan _ => true
  | Action.launch _ _ => true
  | Action.back _ => true
  | _ => false

/-- States obtained from the initial state by scans, BACK presses, and
launches issued while no module is active (`currentAppIndex = -1`). -/
inductive IdleLaunchReachable : State → Prop where
  | initial : IdleLaunchReachable State.initial
  | scan (sd : SDCard) (s : State) :
      IdleLaunchReachable s → IdleLaunchReachable (scanForModularApps sd s)
  | launch (env : Env) (i : Int) (s : State) :
      IdleLaunchReachable s → s.currentAppIndex = -1 →
      IdleLaunchReachable (launchModularApp env i s)
  | back (sd : SDCard) (s : State) :
      IdleLaunchReachable s → IdleLaunchReachable (backButtonHandler sd s)

/-! ## Sample card -/

/-- The manifest `calc.manifest` of the Calc module. -/
def calcManifest : DirEntry :=
  { name := "calc.manifest".toList, path := "/apps/calc.manifest".toList, isDirectory := false,
    content := "name=Calc\ndescription=Calculator\ncodefile=calc.code\nenabled=true".toList }

/-- A second manifest, without an `enabled=` line. -/
def notesManifest : DirEntry :=
  { name := "notes.manifest".toList, path := "/apps/notes.manifest".toList,
    isDirectory := false, content := "name=Notes\ncodefile=notes.code\n".toList }

/-- A card whose `/apps` holds the two manifests, `calc.code` being `code`
and `notes.code` three bytes long. -/
def sampleCard (code : CodeFile) : SDCard :=
  { apps := AppsDir.directory [calcManifest, notesManifest]
    openFile := fun q =>
      if q = "/apps/calc.code".toList then some code
      else if q = "/apps/notes.code".toList then some { content := "abc".toList, delivered := 3 }
      else none }

/-- A five-byte `calc.code`. -/
def smallCode : CodeFile := { content := "hello".toList, delivered := 5 }

/-- A 2000-byte `calc.code`. -/
def calcCode : CodeFile := { content := List.replicate 2000 'x', delivered := 2000 }

/-- A `calc.code` one byte over the size limit. -/
def oversizeCode : CodeFile := { content := List.replicate 50001 'x', delivered := 50001 }

/-- The sample card with the five-byte `calc.code`, `malloc` granting. -/
def smallEnv : Env := { sd := sampleCard smallCode, mallocOk := true }

/-- The sample card with the 2000-byte `calc.code`, `malloc` granting. -/
def calcEnv : Env := { sd := sampleCard calcCode, mallocOk := true }

/-! ## `scanSDCardApps` (`app_launcher.h`, lines 60-77): the `.app` metadata loop -/

/-- The three local variables `name`, `desc`, `enabled` of `scanSDCardApps`. -/
structure SDAppFields where
  name : List Char
  desc : List Char
  enabled : Bool
deriving DecidableEq, Repr

/-- Initial values: `name = ""; desc = ""; enabled = true`. -/
def SDAppFields.initial : SDAppFields := { name := [], desc := [], enabled := true }

/-- One iteration of the `.app` line loop: trim, then the `if / else if` chain
(there is no `codefile=` branch). -/
def parseSDAppLine (m : SDAppFields) (raw : List Char) : SDAppFields :=
  let line := trim raw
  if startsWith line "name=".toList then { m with name := substring line 5 }
  else if startsWith line "description=".toList then { m with desc := substring line 12 }
  else if startsWith line "enabled=".toList then
    { m with enabled := decide (substring line 8 = "true".toList) }
  else m

/-- The whole line loop over a `.app` file. -/
def parseSDApp (content : List Char) : SDAppFields :=
  (readLines content).foldl parseSDAppLine SDAppFields.initial

/-! ## Predicates on directory entries, lines and states -/

/-- The test `!file.isDirectory() && filename.endsWith(".manifest")`. -/
def isManifestEntry (f : DirEntry) : Bool :=
  !f.isDirectory && endsWith f.name ".manifest".toList

/-- A directory entry that the loop body registers: a manifest file whose
parsed record passes the registration guard. -/
def acceptedEntry (f : DirEntry) : Bool :=
  isManifestEntry f && installable (parseManifest f.content)

/-- The registry entry `e` is the descriptor written for the manifest `f`:
the C strings of the parsed name, description and code reference, truncated
as the registration block truncates them. -/
def IsDescriptorOf (e : ModularApp) (f : DirEntry) : Prop :=
  e.name = (cstr (parseManifest f.content).name).take 31 ∧
  e.description = (cstr (parseManifest f.content).desc).take 63 ∧
  e.filepath = ("/apps/".toList ++ cstr (parseManifest f.content).codefile).take 63 ∧
  e.enabled = true ∧ e.loaded = false ∧ e.codeBuffer = none ∧
  e.setup = none ∧ e.loop = none ∧ e.cleanup = none

/-- A line that, once trimmed, begins with none of `name=`, `description=`,
`codefile=`, `enabled=`. -/
def unrecognised (raw : List Char) : Bool :=
  !startsWith (trim raw) "name=".toList && !startsWith (trim raw) "description=".toList &&
  !startsWith (trim raw) "codefile=".toList && !startsWith (trim raw) "enabled=".toList

/-- `currentAppIndex` is `-1` or an index below `appCount`. -/
def CurrentInRange (s : State) : Prop :=
  s.currentAppIndex = -1 ∨ s.validIndex s.currentAppIndex

/-- States obtained from the initial state by launches, BACK presses, and
scans issued while no module is active (`currentAppIndex = -1`). -/
inductive IdleScanReachable : State → Prop where
  | initial : IdleScanReachable State.initial
  | scan (sd : SDCard) (s : State) :
      IdleScanReachable s → s.currentAppIndex = -1 →
      IdleScanReachable (scanForModularApps sd s)
  | launch (env : Env) (i : Int) (s : State) :
      IdleScanReachable s → IdleScanReachable (launchModularApp env i s)
  | back (sd : SDCard) (s : State) :
      IdleScanReachable s → IdleScanReachable (backButtonHandler sd s)

/-- A five-byte `calc.code` of which a read delivers only two bytes. -/
def shortReadCode : CodeFile := { content := "hello".toList, delivered := 2 }

/-- A card without an `/apps` directory and without any file. -/
def emptyCard : SDCard := { apps := AppsDir.missing, openFile := fun _ => none }

/-- Every loaded entry has `codeSize ≤ MAX_APP_CODE_SIZE` and holds a live
block of exactly `codeSize + 1` cells whose cell at offset `codeSize` is the
byte 0. -/
def TerminatedBuffers (s : State) : Prop :=
  ∀ i : Int, (s.appRegistry i).loaded = true →
    (s.appRegistry i).codeSize ≤ MAX_APP_CODE_SIZE ∧
    ∃ (p : Nat) (cells : List (Option Char)),
      (s.appRegistry i).codeBuffer = some p ∧ s.heap.live p = some cells ∧
      cells.length = (s.appRegistry i).codeSize + 1 ∧
      cells[(s.appRegistry i).codeSize]? = some (some (Char.ofNat 0))

/-- A manifest whose `enabled=false` line is followed by an `enabled=true`
line. -/
def overriddenManifest : DirEntry :=
  { name := "a.manifest".toList, path := "/apps/a.manifest".toList, isDirectory := false,
    content := "name=A\ncodefile=a.code\nenabled=false\nenabled=true".toList }

/-- A manifest whose name value is `ab`, a NUL byte, `cd`. -/
def nulManifest : DirEntry :=
  { name := "n.manifest".toList, path := "/apps/n.manifest".toList, isDirectory := false,
    content := "name=ab".toList ++ [Char.ofNat 0] ++ "cd\ncodefile=n.code".toList }

/-! # Theorems -/

/-! ## Projections of the state helpers -/

@[simp] theorem logOpen_appRegistry (s : State) (q : List Char) :
    (s.logOpen q).appRegistry = s.appRegistry := rfl

@[simp] theorem logOpen_appCount (s : State) (q : List Char) :
    (s.logOpen q).appCount = s.appCount := rfl

@[simp] theorem logOpen_currentAppIndex (s : State) (q : List Char) :
    (s.logOpen q).currentAppIndex = s.currentAppIndex := rfl

@[simp] theorem logOpen_heap (s : State) (q : List Char) : (s.logOpen q).heap = s.heap := rfl

@[simp] theorem logOpen_sdOpens (s : State) (q : List Char) :
    (s.logOpen q).sdOpens = q :: s.sdOpens := rfl

@[simp] theorem setApp_appRegistry (s : State) (i : Int) (e : ModularApp) :
    (s.setApp i e).appRegistry = Function.update s.appRegistry i e := rfl

@[simp] theorem setApp_appCount (s : State) (i : Int) (e : ModularApp) :
    (s.setApp i e).appCount = s.appCount := rfl

@[simp] theorem setApp_currentAppIndex (s : State) (i : Int) (e : ModularApp) :
    (s.setApp i e).currentAppIndex = s.currentAppIndex := rfl

@[simp] theorem setApp_heap (s : State) (i : Int) (e : ModularApp) :
    (s.setApp i e).heap = s.heap := rfl

@[simp] theorem setApp_sdOpens (s : State) (i : Int) (e : ModularApp) :
    (s.setApp i e).sdOpens = s.sdOpens := rfl

/-! ## The scan loop -/

theorem scanLoop_induction (P : State → Prop)
    (hstep : ∀ f s, P s → s.appCount < MAX_APPS → P (scanEntry f s)) :
    ∀ entries s, P s → P (scanLoop entries s) := by
  intro entries
  induction entries with
  | nil => intro s hs; simpa [scanLoop] using hs
  | cons f rest ih =>
    intro s hs
    by_cases hlt : s.appCount < MAX_APPS
    · simp only [scanLoop, hlt, if_true]
      exact ih _ (hstep f s hs hlt)
    · simpa [scanLoop, hlt] using hs

theorem scanEntry_freshBelow (f : DirEntry) (s : State) (h : FreshBelow s)
    (hlt : s.appCount < MAX_APPS) : FreshBelow (scanEntry f s) := by
  obtain ⟨h0, _, hall⟩ := h
  unfold scanEntry
  split
  · simp only
    split
    · rename_i hinst
      have hen : (parseManifest f.content).enabled = true := by
        simp [installable] at hinst; exact hinst.2
      refine ⟨?_, ?_, ?_⟩
      · simp [registerApp]; omega
      · simp [registerApp]; omega
      · intro i hi0 hi
        simp only [registerApp, logOpen_appCount, logOpen_appRegistry] at hi ⊢
        by_cases hEq : i = s.appCount
        · subst hEq; simp [hen]
        · have : i < s.appCount := by omega
          simp [Function.update_noteq hEq, hall i hi0 this]
    · exact ⟨h0, by simpa using le_of_lt hlt, hall⟩
  · exact ⟨h0, le_of_lt hlt, hall⟩

theorem scan_freshBelow (sd : SDCard) (s : State) : FreshBelow (scanForModularApps sd s) := by
  have h0 : FreshBelow ({ s with appCount := 0 }.logOpen "/apps".toList) :=
    ⟨le_refl _, by simp [MAX_APPS], fun i h0 h => absurd h (not_lt.mpr h0)⟩
  unfold scanForModularApps
  split
  · exact scanLoop_induction FreshBelow scanEntry_freshBelow _ _ h0
  · exact h0

/-! ## Case lemmas for `loadAppCode` -/

theorem validIndex_iff (s : State) (i : Int) :
    s.validIndex i ↔ ¬ (i < 0 ∨ i ≥ s.appCount) := by
  unfold State.validIndex; omega

theorem loadAppCode_invalid (env : Env) (i : Int) (s : State) (h : ¬ s.validIndex i) :
    loadAppCode env i s = (false, s) := by
  rw [validIndex_iff, not_not] at h
  simp [loadAppCode, h]

theorem loadAppCode_already (env : Env) (i : Int) (s : State) (hv : s.validIndex i)
    (hl : (s.appRegistry i).loaded = true) : loadAppCode env i s = (true, s) := by
  rw [validIndex_iff] at hv
  simp [loadAppCode, hv, hl]

theorem loadAppCode_openFails (env : Env) (i : Int) (s : State) (hv : s.validIndex i)
    (hl : (s.appRegistry i).loaded = false)
    (ho : env.sd.openFile (s.appRegistry i).filepath = none) :
    loadAppCode env i s = (false, s.logOpen (s.appRegistry i).filepath) := by
  rw [validIndex_iff] at hv
  simp [loadAppCode, hv, hl, ho]

theorem loadAppCode_tooLarge (env : Env) (i : Int) (s : State) (file : CodeFile)
    (hv : s.validIndex i) (hl : (s.appRegistry i).loaded = false)
    (ho : env.sd.openFile (s.appRegistry i).filepath = some file)
    (hsz : file.size > MAX_APP_CODE_SIZE) :
    loadAppCode env i s = (false, s.logOpen (s.appRegistry i).filepath) := by
  rw [validIndex_iff] at hv
  simp [loadAppCode, hv, hl, ho, hsz]

theorem loadAppCode_allocFails (env : Env) (i : Int) (s : State) (file : CodeFile)
    (hv : s.validIndex i) (hl : (s.appRegistry i).loaded = false)
    (ho : env.sd.openFile (s.appRegistry i).filepath = some file)
    (hsz : file.size ≤ MAX_APP_CODE_SIZE) (hm : env.mallocOk = false) :
    loadAppCode env i s =
      (false, (s.logOpen (s.appRegistry i).filepath).setApp i
                { s.appRegistry i with codeBuffer := none }) := by
  rw [validIndex_iff] at hv
  have hsz' : ¬ file.size > MAX_APP_CODE_SIZE := not_lt.mpr hsz
  simp [loadAppCode, hv, hl, ho, hsz', hm, Heap.malloc, State.logOpen, State.setApp]

theorem loadedHeap_eq (h : Heap) (n : Nat) (bytes : List Char) :
    ((h.malloc true (n + 1)).2.storeBytes h.next bytes).storeAt h.next n (Char.ofNat 0)
      = loadedHeap h n bytes := by
  simp [Heap.malloc, Heap.storeBytes, Heap.storeAt, loadedHeap]

theorem loadAppCode_success (env : Env) (i : Int) (s : State) (file : CodeFile)
    (hv : s.validIndex i) (hl : (s.appRegistry i).loaded = false)
    (ho : env.sd.openFile (s.appRegistry i).filepath = some file)
    (hsz : file.size ≤ MAX_APP_CODE_SIZE) (hm : env.mallocOk = true) :
    loadAppCode env i s =
      (true, ({ s.logOpen (s.appRegistry i).filepath with
                heap := loadedHeap s.heap file.size (file.read file.size) }).setApp i
                { s.appRegistry i with
                  codeBuffer := some s.heap.next, codeSize := file.size, loaded := true }) := by
  rw [validIndex_iff] at hv
  have hsz' : ¬ file.size > MAX_APP_CODE_SIZE := not_lt.mpr hsz
  rw [← loadedHeap_eq]
  simp [loadAppCode, hv, hl, ho, hsz', hm, Heap.malloc, State.logOpen, State.setApp]

/-! ## Case lemmas for `unloadAppCode` -/
/-- Case analysis on the path taken by `loadAppCode`. -/
theorem loadAppCode_elim (env : Env) (i : Int) (s : State) (P : Bool × State → Prop)
    (hInvalid : ¬ s.validIndex i → P (false, s))
    (hAlready : s.validIndex i → (s.appRegistry i).loaded = true → P (true, s))
    (hNoBuffer : s.validIndex i → (s.appRegistry i).loaded = false →
      P (false, s.logOpen (s.appRegistry i).filepath))
    (hAlloc : s.validIndex i → (s.appRegistry i).loaded = false →
      P (false, (s.logOpen (s.appRegistry i).filepath).setApp i
                  { s.appRegistry i with codeBuffer := none }))
    (hLoaded : ∀ file : CodeFile, s.validIndex i → (s.appRegistry i).loaded = false →
      env.sd.openFile (s.appRegistry i).filepath = some file →
      file.size ≤ MAX_APP_CODE_SIZE → env.mallocOk = true →
      P (true, ({ s.logOpen (s.appRegistry i).filepath with
                  heap := loadedHeap s.heap file.size (file.read file.size) }).setApp i
                  { s.appRegistry i with
                    codeBuffer := some s.heap.next, codeSize := file.size, loaded := true })) :
    P (loadAppCode env i s) := by
  by_cases hv : s.validIndex i
  · cases hl : (s.appRegistry i).loaded
    · cases ho : env.sd.openFile (s.appRegistry i).filepath with
      | none => rw [loadAppCode_openFails env i s hv hl ho]; exact hNoBuffer hv hl
      | some file =>
        by_cases hsz : file.size ≤ MAX_APP_CODE_SIZE
        · cases hm : env.mallocOk
          · rw [loadAppCode_allocFails env i s file hv hl ho hsz hm]; exact hAlloc hv hl
          · rw [loadAppCode_success env i s file hv hl ho hsz hm]
            exact hLoaded file hv hl ho hsz hm
        · rw [loadAppCode_tooLarge env i s file hv hl ho (not_le.mp hsz)]
          exact hNoBuffer hv hl
    · rw [loadAppCode_already env i s hv hl]; exact hAlready hv hl
  · rw [loadAppCode_invalid env i s hv]; exact hInvalid hv

theorem unloadAppCode_noop (i : Int) (s : State)
    (h : ¬ s.validIndex i ∨ (s.appRegistry i).loaded = false) : unloadAppCode i s = s := by
  unfold unloadAppCode
  rcases h with h | h
  · rw [validIndex_iff, not_not] at h
    simp [h]
  · split
    · rfl
    · simp [h]

theorem unloadAppCode_free (i : Int) (s : State) (p : Nat) (hv : s.validIndex i)
    (hl : (s.appRegistry i).loaded = true) (hb : (s.appRegistry i).codeBuffer = some p) :
    unloadAppCode i s =
      ({ s with heap := s.heap.free p }).setApp i
        { s.appRegistry i with
          codeBuffer := none, loaded := false, setup := none, loop := none, cleanup := none } := by
  rw [validIndex_iff] at hv
  simp [unloadAppCode, hv, hl, hb, State.setApp]

theorem unloadAppCode_null (i : Int) (s : State) (hv : s.validIndex i)
    (hl : (s.appRegistry i).loaded = true) (hb : (s.appRegistry i).codeBuffer = none) :
    unloadAppCode i s =
      s.setApp i
        { s.appRegistry i with loaded := false, setup := none, loop := none, cleanup := none } := by
  rw [validIndex_iff] at hv
  simp [unloadAppCode, hv, hl, hb]

/-- Case analysis on the path taken by `unloadAppCode`. -/
theorem unloadAppCode_elim (i : Int) (s : State) (P : State → Prop)
    (hNoop : (¬ s.validIndex i ∨ (s.appRegistry i).loaded = false) → P s)
    (hFree : ∀ p : Nat, s.validIndex i → (s.appRegistry i).loaded = true →
      (s.appRegistry i).codeBuffer = some p →
      P (({ s with heap := s.heap.free p }).setApp i
        { s.appRegistry i with
          codeBuffer := none, loaded := false, setup := none, loop := none, cleanup := none }))
    (hNull : s.validIndex i → (s.appRegistry i).loaded = true →
      (s.appRegistry i).codeBuffer = none →
      P (s.setApp i
        { s.appRegistry i with loaded := false, setup := none, loop := none, cleanup := none })) :
    P (unloadAppCode i s) := by
  by_cases hv : s.validIndex i
  · cases hl : (s.appRegistry i).loaded
    · rw [unloadAppCode_noop i s (Or.inr hl)]; exact hNoop (Or.inr hl)
    · cases hb : (s.appRegistry i).codeBuffer with
      | none => rw [unloadAppCode_null i s hv hl hb]; exact hNull hv hl hb
      | some p => rw [unloadAppCode_free i s p hv hl hb]; exact hFree p hv hl hb
  · rw [unloadAppCode_noop i s (Or.inl hv)]; exact hNoop (Or.inl hv)

/-! ## Coherence of flag and buffer -/
theorem loadAppCode_appCount (env : Env) (i : Int) (s : State) :
    (loadAppCode env i s).2.appCount = s.appCount := by
  refine loadAppCode_elim env i s (fun r => r.2.appCount = s.appCount) ?_ ?_ ?_ ?_ ?_ <;>
    intros <;> rfl

theorem unloadAppCode_appCount (i : Int) (s : State) :
    (unloadAppCode i s).appCount = s.appCount := by
  refine unloadAppCode_elim i s (fun r => r.appCount = s.appCount) ?_ ?_ ?_ <;> intros <;> rfl

theorem loadAppCode_coherent (env : Env) (i : Int) (s : State) (h : Coherent s) :
    Coherent (loadAppCode env i s).2 := by
  refine loadAppCode_elim env i s (fun r => Coherent r.2) ?_ ?_ ?_ ?_ ?_
  · intro _; exact h
  · intro _ _; exact h
  · intro _ _; exact h
  · intro _ hl j hj
    by_cases hji : j = i
    · subst hji; simp [hl]
    · simpa [Function.update_noteq hji] using h j hj
  · intro file _ _ _ _ _ j hj
    by_cases hji : j = i
    · subst hji; simp
    · simpa [Function.update_noteq hji] using h j hj

theorem unloadAppCode_coherent (i : Int) (s : State) (h : Coherent s) :
    Coherent (unloadAppCode i s) := by
  refine unloadAppCode_elim i s Coherent ?_ ?_ ?_
  · intro _; exact h
  · intro p _ _ _ j hj
    by_cases hji : j = i
    · subst hji; simp
    · simpa [Function.update_noteq hji] using h j hj
  · intro _ _ hb j hj
    by_cases hji : j = i
    · subst hji; simp [hb]
    · simpa [Function.update_noteq hji] using h j hj

theorem freshBelow_coherent (s : State) (h : FreshBelow s) : Coherent s := by
  intro i hi
  obtain ⟨_, hl, hb⟩ := h.2.2 i hi.1 hi.2
  simp [hl, hb]

theorem scan_coherent (sd : SDCard) (s : State) : Coherent (scanForModularApps sd s) :=
  freshBelow_coherent _ (scan_freshBelow sd s)

/-! ## Ownership of buffers -/
theorem owned_mono (s t : State) (hh : t.heap = s.heap)
    (hb : ∀ (i : Int) (p : Nat), (t.appRegistry i).codeBuffer = some p →
      (s.appRegistry i).codeBuffer = some p) (h : Owned s) : Owned t := by
  obtain ⟨h1, h2, h3, h4⟩ := h
  refine ⟨?_, ?_, ?_, ?_⟩
  · intro i p hp; rw [hh]; exact h1 i p (hb i p hp)
  · intro i j p hi hj; exact h2 i j p (hb i p hi) (hb j p hj)
  · rw [hh]; exact h3
  · rw [hh]; exact h4

theorem scanEntry_heap (f : DirEntry) (s : State) : (scanEntry f s).heap = s.heap := by
  unfold scanEntry
  split
  · simp only; split <;> rfl
  · rfl

theorem scanEntry_buffers (f : DirEntry) (s : State) (i : Int) (p : Nat)
    (h : ((scanEntry f s).appRegistry i).codeBuffer = some p) :
    (s.appRegistry i).codeBuffer = some p := by
  unfold scanEntry at h
  split at h
  · simp only at h
    split at h
    · simp only [registerApp, logOpen_appRegistry, logOpen_appCount] at h
      by_cases hi : i = s.appCount
      · subst hi; simp at h
      · simpa [Function.update_noteq hi] using h
    · exact h
  · exact h

theorem scan_heap (sd : SDCard) (s : State) : (scanForModularApps sd s).heap = s.heap := by
  unfold scanForModularApps
  split
  · exact scanLoop_induction (fun t => t.heap = s.heap)
      (fun f t ht _ => (scanEntry_heap f t).trans ht) _ _ rfl
  · rfl

theorem scan_buffers (sd : SDCard) (s : State) (i : Int) (p : Nat)
    (h : ((scanForModularApps sd s).appRegistry i).codeBuffer = some p) :
    (s.appRegistry i).codeBuffer = some p := by
  have key : ∀ t : State, (∀ (i : Int) (p : Nat), (t.appRegistry i).codeBuffer = some p →
      (s.appRegistry i).codeBuffer = some p) → ∀ entries,
      ∀ (i : Int) (p : Nat), ((scanLoop entries t).appRegistry i).codeBuffer = some p →
      (s.appRegistry i).codeBuffer = some p := by
    intro t ht entries
    exact scanLoop_induction (fun t => ∀ (i : Int) (p : Nat),
        (t.appRegistry i).codeBuffer = some p → (s.appRegistry i).codeBuffer = some p)
      (fun f u hu _ i p hp => hu i p (scanEntry_buffers f u i p hp)) entries t ht
  unfold scanForModularApps at h
  split at h
  · exact key ({ s with appCount := 0 }.logOpen "/apps".toList) (fun i p hp => hp) _ i p h
  · exact h

theorem scan_owned (sd : SDCard) (s : State) (h : Owned s) : Owned (scanForModularApps sd s) :=
  owned_mono s _ (scan_heap sd s) (scan_buffers sd s) h

theorem loadAppCode_owned (env : Env) (i : Int) (s : State) (h : Owned s) :
    Owned (loadAppCode env i s).2 := by
  refine loadAppCode_elim env i s (fun r => Owned r.2) ?_ ?_ ?_ ?_ ?_
  · intro _; exact h
  · intro _ _; exact h
  · intro _ _; exact owned_mono s _ rfl (fun _ _ hp => hp) h
  · intro _ _
    refine owned_mono s _ rfl ?_ h
    intro j p hp
    by_cases hji : j = i
    · subst hji; simp at hp
    · simpa [Function.update_noteq hji] using hp
  · intro file _ _ _ _ _
    obtain ⟨h1, h2, h3, h4⟩ := h
    have hold : ∀ (j : Int) (p : Nat), (s.appRegistry j).codeBuffer = some p →
        p ≠ s.heap.next := fun j p hp => Nat.ne_of_lt (h1 j p hp).1
    refine ⟨?_, ?_, ?_, ?_⟩
    · intro j p hp
      by_cases hji : j = i
      · subst hji
        simp at hp
        subst hp
        simp only [State.setApp, loadedHeap, Function.update_same]
        refine ⟨Nat.lt_succ_self _, by simp, ?_⟩
        intro hmem
        exact absurd (h3 _ hmem) (lt_irrefl _)
      · simp [Function.update_noteq hji] at hp
        obtain ⟨ha, hb, hc⟩ := h1 j p hp
        refine ⟨?_, ?_, hc⟩
        · simp [loadedHeap]; omega
        · simp [loadedHeap, Function.update_noteq (hold j p hp)]; exact hb
    · intro j k p hj hk
      by_cases hji : j = i <;> by_cases hki : k = i
      · rw [hji, hki]
      · subst hji
        simp [Function.update_noteq hki] at hj hk
        exact absurd hj.symm (hold k p hk)
      · subst hki
        simp [Function.update_noteq hji] at hj hk
        exact absurd hk.symm (hold j p hj)
      · simp [Function.update_noteq hji, Function.update_noteq hki] at hj hk
        exact h2 j k p hj hk
    · intro p hp
      have := h3 p hp
      simp [loadedHeap]; omega
    · exact h4

theorem unloadAppCode_owned (i : Int) (s : State) (h : Owned s) :
    Owned (unloadAppCode i s) := by
  refine unloadAppCode_elim i s Owned ?_ ?_ ?_
  · intro _; exact h
  · intro p _ _ hb
    obtain ⟨h1, h2, h3, h4⟩ := h
    obtain ⟨hp1, _, hp3⟩ := h1 i p hb
    refine ⟨?_, ?_, ?_, ?_⟩
    · intro j q hq
      by_cases hji : j = i
      · subst hji; simp at hq
      · simp [Function.update_noteq hji] at hq
        have hqp : q ≠ p := by
          intro hEq; subst hEq; exact hji (h2 j i q hq hb)
        obtain ⟨ha, hb', hc⟩ := h1 j q hq
        refine ⟨ha, ?_, ?_⟩
        · simpa [Heap.free, Function.update_noteq hqp] using hb'
        · simp [Heap.free, hqp, hc]
    · intro j k q hj hk
      by_cases hji : j = i
      · subst hji; simp at hj
      · by_cases hki : k = i
        · subst hki; simp at hk
        · simp [Function.update_noteq hji, Function.update_noteq hki] at hj hk
          exact h2 j k q hj hk
    · intro q hq
      simp [Heap.free] at hq ⊢
      rcases hq with hq | hq
      · subst hq; exact hp1
      · exact h3 q hq
    · simp [Heap.free]
      exact ⟨hp3, h4⟩
  · intro _ _ _
    refine owned_mono s _ rfl ?_ h
    intro j p hp
    by_cases hji : j = i
    · subst hji; simpa using hp
    · simpa [Function.update_noteq hji] using hp

/-! ## Invariants of the reachable states -/
theorem launchModularApp_eq (env : Env) (i : Int) (s : State) :
    launchModularApp env i s =
      if (loadAppCode env i s).1 = true then
        { (loadAppCode env i s).2 with currentAppIndex := i }
      else (loadAppCode env i s).2 := by
  by_cases hv : s.validIndex i
  · have hv' := (validIndex_iff s i).mp hv
    unfold launchModularApp
    rw [if_neg hv']
    rcases hres : loadAppCode env i s with ⟨b, t⟩
    cases b <;> simp
  · have hv' : i < 0 ∨ i ≥ s.appCount := by
      rw [validIndex_iff, not_not] at hv; exact hv
    rw [loadAppCode_invalid env i s hv]
    simp [launchModularApp, hv']

theorem coherent_congr (s t : State) (hr : t.appRegistry = s.appRegistry)
    (hc : t.appCount = s.appCount) (h : Coherent s) : Coherent t := by
  intro i hi
  have hi' : s.validIndex i := by
    unfold State.validIndex at hi ⊢; rw [hc] at hi; exact hi
  rw [hr]; exact h i hi'

theorem launchModularApp_coherent (env : Env) (i : Int) (s : State) (h : Coherent s) :
    Coherent (launchModularApp env i s) := by
  rw [launchModularApp_eq]
  split
  · exact coherent_congr _ _ rfl rfl (loadAppCode_coherent env i s h)
  · exact loadAppCode_coherent env i s h

theorem launchModularApp_owned (env : Env) (i : Int) (s : State) (h : Owned s) :
    Owned (launchModularApp env i s) := by
  rw [launchModularApp_eq]
  split
  · exact owned_mono _ _ rfl (fun _ _ hp => hp) (loadAppCode_owned env i s h)
  · exact loadAppCode_owned env i s h

theorem closeCurrentApp_coherent (s : State) (h : Coherent s) : Coherent (closeCurrentApp s) := by
  unfold closeCurrentApp
  split
  · exact coherent_congr _ _ rfl rfl (unloadAppCode_coherent _ s h)
  · exact h

theorem closeCurrentApp_owned (s : State) (h : Owned s) : Owned (closeCurrentApp s) := by
  unfold closeCurrentApp
  split
  · exact owned_mono _ _ rfl (fun _ _ hp => hp) (unloadAppCode_owned _ s h)
  · exact h

theorem step_coherent (s : State) (a : Action) (h : Coherent s) : Coherent (step s a) := by
  cases a with
  | scan sd => exact scan_coherent sd s
  | load env i => exact loadAppCode_coherent env i s h
  | unload i => exact unloadAppCode_coherent i s h
  | launch env i => exact launchModularApp_coherent env i s h
  | back sd => exact scan_coherent sd _

theorem step_owned (s : State) (a : Action) (h : Owned s) : Owned (step s a) := by
  cases a with
  | scan sd => exact scan_owned sd s h
  | load env i => exact loadAppCode_owned env i s h
  | unload i => exact unloadAppCode_owned i s h
  | launch env i => exact launchModularApp_owned env i s h
  | back sd => exact scan_owned sd _ (closeCurrentApp_owned s h)

theorem reachable_coherent (s : State) (h : Reachable s) : Coherent s := by
  induction h with
  | initial => intro i hi; exact absurd hi.2 (not_lt.mpr hi.1)
  | next s a _ ih => exact step_coherent s a ih

theorem reachable_owned (s : State) (h : Reachable s) : Owned s := by
  induction h with
  | initial =>
    refine ⟨?_, ?_, ?_, ?_⟩
    · intro i p hp; simp [State.initial, ModularApp.zero] at hp
    · intro i j p hp; simp [State.initial, ModularApp.zero] at hp
    · intro p hp; simp [State.initial, Heap.empty] at hp
    · simp [State.initial, Heap.empty]
  | next s a _ ih => exact step_owned s a ih

theorem reachable_run (acts : List Action) : ∀ s, Reachable s → Reachable (run s acts) := by
  induction acts with
  | nil => intro s h; exact h
  | cons a rest ih => intro s h; exact ih _ (Reachable.next s a h)

/-! ## C1 -/

/-- Under the launcher discipline every loaded entry below `appCount` is the
active one. -/
theorem idleLaunch_loaded_is_current (s : State) (h : IdleLaunchReachable s) :
    ∀ j : Int, s.validIndex j → (s.appRegistry j).loaded = true → s.currentAppIndex = j := by
  induction h with
  | initial => intro j hj; exact absurd hj.2 (not_lt.mpr hj.1)
  | scan sd s _ _ =>
    intro j hj hl
    have := ((scan_freshBelow sd s).2.2 j hj.1 hj.2).2.1
    rw [this] at hl; exact absurd hl (by simp)
  | back sd s _ _ =>
    intro j hj hl
    have := ((scan_freshBelow sd (closeCurrentApp s)).2.2 j hj.1 hj.2).2.1
    unfold backButtonHandler createModularAppLauncher at hl
    rw [this] at hl; exact absurd hl (by simp)
  | launch env i s _ hidle ih =>
    have hnone : ∀ j : Int, s.validIndex j → (s.appRegistry j).loaded = false := by
      intro j hj
      cases hl : (s.appRegistry j).loaded
      · rfl
      · have := ih j hj hl
        rw [hidle] at this
        have := hj.1
        omega
    rw [launchModularApp_eq]
    refine loadAppCode_elim env i s
      (fun r => ∀ j : Int,
        (if r.1 = true then { r.2 with currentAppIndex := i } else r.2).validIndex j →
        ((if r.1 = true then { r.2 with currentAppIndex := i } else r.2).appRegistry j).loaded
          = true →
        (if r.1 = true then { r.2 with currentAppIndex := i } else r.2).currentAppIndex = j)
      ?_ ?_ ?_ ?_ ?_
    · intro _ j hj hl
      simp at hj hl ⊢
      exact ih j hj hl
    · intro hv hl j hj _
      rw [hnone i hv] at hl; exact absurd hl (by simp)
    · intro _ _ j hj hl
      simp [State.validIndex] at hj hl ⊢
      exact ih j hj hl
    · intro _ hli j hj hl
      simp [State.validIndex] at hj hl ⊢
      by_cases hji : j = i
      · subst hji; simp [hli] at hl
      · rw [Function.update_noteq hji] at hl
        exact ih j hj hl
    · intro file _ _ _ _ _ j hj hl
      simp [State.validIndex] at hj hl ⊢
      by_cases hji : j = i
      · exact hji.symm
      · rw [Function.update_noteq hji] at hl
        rw [hnone j hj] at hl; exact absurd hl (by simp)

/-- C1 (as stated, refuted): from the initial state, a scan of the sample card,
`launchModularApp(0)` and then `launchModularApp(1)` lead to a state in which
the entries 0 and 1, both below `appCount`, are both loaded. -/
theorem C1_two_loaded_after_two_launches :
    ¬ AtMostOneLoaded (run State.initial
        [Action.scan (sampleCard smallCode), Action.launch smallEnv 0,
         Action.launch smallEnv 1]) := by
  intro h
  exact absurd (h 0 1 (by decide) (by decide) (by decide) (by decide)) (by decide)

/-- C1 (amended): in every state reached from the initial state by scans, BACK
presses, and launches issued while no module is active (`currentAppIndex = -1`),
at most one registry entry below `appCount` is loaded. -/
theorem C1_at_most_one_loaded_idle_launch (s : State) (h : IdleLaunchReachable s) :
    AtMostOneLoaded s := by
  intro i j hi hj hli hlj
  rw [← idleLaunch_loaded_is_current s h i hi hli, ← idleLaunch_loaded_is_current s h j hj hlj]

/-- Witness for C1 (amended): scan, launch 0, BACK, launch 1 on the sample card. -/
theorem C1_at_most_one_loaded_idle_launch_witness :
    AtMostOneLoaded
      (launchModularApp smallEnv 1 (backButtonHandler (sampleCard smallCode)
        (launchModularApp smallEnv 0 (scanForModularApps (sampleCard smallCode)
          State.initial)))) :=
  C1_at_most_one_loaded_idle_launch _
    (IdleLaunchReachable.launch smallEnv 1 _
      (IdleLaunchReachable.back (sampleCard smallCode) _
        (IdleLaunchReachable.launch smallEnv 0 _
          (IdleLaunchReachable.scan (sampleCard smallCode) _ IdleLaunchReachable.initial)
          (by decide)))
      (by decide))

/-! ## C2 -/

theorem loadAppCode_true_loaded (env : Env) (i : Int) (s : State)
    (h : (loadAppCode env i s).1 = true) :
    s.validIndex i ∧ ((loadAppCode env i s).2.appRegistry i).loaded = true := by
  revert h
  refine loadAppCode_elim env i s
    (fun r => r.1 = true → s.validIndex i ∧ (r.2.appRegistry i).loaded = true) ?_ ?_ ?_ ?_ ?_
  · intro _ h; simp at h
  · intro hv hl _; exact ⟨hv, hl⟩
  · intro _ _ h; simp at h
  · intro _ _ h; simp at h
  · intro file hv _ _ _ _ _; exact ⟨hv, by simp⟩

theorem loadAppCode_other (env : Env) (i k : Int) (s : State) (hk : k ≠ i) :
    (loadAppCode env i s).2.appRegistry k = s.appRegistry k := by
  refine loadAppCode_elim env i s (fun r => r.2.appRegistry k = s.appRegistry k) ?_ ?_ ?_ ?_ ?_
  · intro _; rfl
  · intro _ _; rfl
  · intro _ _; rfl
  · intro _ _; simp [Function.update_noteq hk]
  · intro file _ _ _ _ _; simp [Function.update_noteq hk]

theorem launchModularApp_appRegistry (env : Env) (i : Int) (s : State) :
    (launchModularApp env i s).appRegistry = (loadAppCode env i s).2.appRegistry := by
  rw [launchModularApp_eq]; split <;> rfl

theorem launchModularApp_appCount (env : Env) (i : Int) (s : State) :
    (launchModularApp env i s).appCount = s.appCount := by
  rw [launchModularApp_eq]; split
  · exact loadAppCode_appCount env i s
  · exact loadAppCode_appCount env i s

theorem launchModularApp_current (env : Env) (i : Int) (s : State)
    (h : (loadAppCode env i s).1 = true) : (launchModularApp env i s).currentAppIndex = i := by
  rw [launchModularApp_eq, if_pos h]

/-- C2 (as stated, refuted): on the sample card both code files load, yet after
`launchModularApp(0)` then `launchModularApp(1)` entry 0 is still loaded and
still holds its buffer (address 1), which is still allocated; entry 1 is
loaded and `currentAppIndex = 1`. -/
theorem C2_first_module_stays_loaded :
    (loadAppCode smallEnv 0 (scanForModularApps (sampleCard smallCode) State.initial)).1 = true ∧
    (loadAppCode smallEnv 1 (launchModularApp smallEnv 0
      (scanForModularApps (sampleCard smallCode) State.initial))).1 = true ∧
    ((launchModularApp smallEnv 1 (launchModularApp smallEnv 0
      (scanForModularApps (sampleCard smallCode) State.initial))).appRegistry 1).loaded = true ∧
    (launchModularApp smallEnv 1 (launchModularApp smallEnv 0
      (scanForModularApps (sampleCard smallCode) State.initial))).currentAppIndex = 1 ∧
    ((launchModularApp smallEnv 1 (launchModularApp smallEnv 0
      (scanForModularApps (sampleCard smallCode) State.initial))).appRegistry 0).loaded = true ∧
    ((launchModularApp smallEnv 1 (launchModularApp smallEnv 0
      (scanForModularApps (sampleCard smallCode) State.initial))).appRegistry 0).codeBuffer
        = some 1 ∧
    ((launchModularApp smallEnv 1 (launchModularApp smallEnv 0
      (scanForModularApps (sampleCard smallCode) State.initial))).heap.live 1).isSome = true := by
  decide

/-- C2 (amended): for a reachable state and two distinct valid indices `i`, `j`
whose code loads successfully, `launchModularApp(i)` followed by
`launchModularApp(j)` with no close in between ends with entry `j` loaded and
`currentAppIndex = j`, while entry `i` is still loaded and still holds its
buffer, which is still allocated: the launch performs no implicit close. -/
theorem C2_launch_twice_no_implicit_close (env1 env2 : Env) (s : State) (i j : Int)
    (hs : Reachable s) (hij : i ≠ j)
    (h1 : (loadAppCode env1 i s).1 = true)
    (h2 : (loadAppCode env2 j (launchModularApp env1 i s)).1 = true) :
    ((launchModularApp env2 j (launchModularApp env1 i s)).appRegistry j).loaded = true ∧
    (launchModularApp env2 j (launchModularApp env1 i s)).currentAppIndex = j ∧
    ((launchModularApp env2 j (launchModularApp env1 i s)).appRegistry i).loaded = true ∧
    ∃ p : Nat,
      ((launchModularApp env2 j (launchModularApp env1 i s)).appRegistry i).codeBuffer = some p ∧
      (launchModularApp env2 j (launchModularApp env1 i s)).heap.live p ≠ none := by
  have hr : Reachable (launchModularApp env2 j (launchModularApp env1 i s)) :=
    Reachable.next _ (Action.launch env2 j) (Reachable.next s (Action.launch env1 i) hs)
  have hvi : s.validIndex i := (loadAppCode_true_loaded env1 i s h1).1
  have hli : ((launchModularApp env2 j (launchModularApp env1 i s)).appRegistry i).loaded
      = true := by
    rw [launchModularApp_appRegistry, loadAppCode_other env2 j i _ hij,
      launchModularApp_appRegistry]
    exact (loadAppCode_true_loaded env1 i s h1).2
  have hvi' : (launchModularApp env2 j (launchModularApp env1 i s)).validIndex i := by
    unfold State.validIndex
    rw [launchModularApp_appCount, launchModularApp_appCount]
    exact hvi
  refine ⟨?_, launchModularApp_current env2 j _ h2, hli, ?_⟩
  · rw [launchModularApp_appRegistry]
    exact (loadAppCode_true_loaded env2 j _ h2).2
  · have hne := ((reachable_coherent _ hr) i hvi').mpr hli
    obtain ⟨p, hp⟩ := Option.ne_none_iff_exists'.mp hne
    exact ⟨p, hp, ((reachable_owned _ hr).1 i p hp).2.1⟩

/-- Witness for C2 (amended): the sample card, indices 0 and 1. -/
theorem C2_launch_twice_no_implicit_close_witness :
    ((launchModularApp smallEnv 1 (launchModularApp smallEnv 0
      (scanForModularApps (sampleCard smallCode) State.initial))).appRegistry 0).loaded = true :=
  (C2_launch_twice_no_implicit_close smallEnv smallEnv
    (scanForModularApps (sampleCard smallCode) State.initial) 0 1
    (Reachable.next _ (Action.scan (sampleCard smallCode)) Reachable.initial)
    (by decide) (by decide) (by decide)).2.2.1

/-! ## C3 -/

/-- C3 (code defect, evaluated): with entry 0 loaded and holding the buffer at
address 1, `scanForModularApps` returns with address 1 still allocated and
never passed to `free`, while entry 0 no longer refers to it. -/
theorem C3_scan_keeps_stale_buffer_allocated :
    ((launchModularApp smallEnv 0
      (scanForModularApps (sampleCard smallCode) State.initial)).appRegistry 0).loaded = true ∧
    ((launchModularApp smallEnv 0
      (scanForModularApps (sampleCard smallCode) State.initial)).appRegistry 0).codeBuffer
        = some 1 ∧
    ((scanForModularApps (sampleCard smallCode) (launchModularApp smallEnv 0
      (scanForModularApps (sampleCard smallCode) State.initial))).heap.live 1).isSome = true ∧
    (scanForModularApps (sampleCard smallCode) (launchModularApp smallEnv 0
      (scanForModularApps (sampleCard smallCode) State.initial))).heap.freed = [] ∧
    ((scanForModularApps (sampleCard smallCode) (launchModularApp smallEnv 0
      (scanForModularApps (sampleCard smallCode) State.initial))).appRegistry 0).codeBuffer
        = none := by
  decide

/-! ## C4 -/

/-- C4: after `scanForModularApps`, whatever the card and the prior state,
`0 ≤ appCount ≤ MAX_APPS = 20` and every entry below `appCount` has
`enabled = true`. -/
theorem C4_scan_count_bounded_all_enabled (sd : SDCard) (s : State) :
    0 ≤ (scanForModularApps sd s).appCount ∧
    (scanForModularApps sd s).appCount ≤ MAX_APPS ∧ MAX_APPS = 20 ∧
    ∀ i : Int, 0 ≤ i → i < (scanForModularApps sd s).appCount →
      ((scanForModularApps sd s).appRegistry i).enabled = true :=
  ⟨(scan_freshBelow sd s).1, (scan_freshBelow sd s).2.1, rfl,
    fun i h0 h => ((scan_freshBelow sd s).2.2 i h0 h).1⟩

/-! ## C5 -/

/-- C5: when entry `i` is valid and already loaded, `loadAppCode(i)` returns
true and leaves the whole state unchanged, whatever the card holds and the
allocator would answer (no path is added to the log of `SD_MMC.open` calls);
and whenever a load has returned true, a second load of the same index returns
true with the state, `codeSize` included, exactly as the first left it. -/
theorem C5_load_of_loaded_entry_is_noop (env env2 : Env) (i : Int) (s : State) :
    (s.validIndex i → (s.appRegistry i).loaded = true →
      loadAppCode env i s = (true, s) ∧ (loadAppCode env i s).2.sdOpens = s.sdOpens) ∧
    ((loadAppCode env i s).1 = true →
      loadAppCode env2 i (loadAppCode env i s).2 = (true, (loadAppCode env i s).2)) := by
  constructor
  · intro hv hl
    rw [loadAppCode_already env i s hv hl]
    exact ⟨rfl, rfl⟩
  · intro h
    obtain ⟨hv, hl⟩ := loadAppCode_true_loaded env i s h
    have hv2 : (loadAppCode env i s).2.validIndex i := by
      unfold State.validIndex; rw [loadAppCode_appCount]; exact hv
    exact loadAppCode_already env2 i _ hv2 hl

/-- Witness for C5: entry 0 of the sample card after a launch; the second load
is given a card on which nothing can be opened. -/
theorem C5_load_of_loaded_entry_is_noop_witness :
    loadAppCode { sd := { apps := AppsDir.missing, openFile := fun _ => none }, mallocOk := false }
        0 (launchModularApp smallEnv 0 (scanForModularApps (sampleCard smallCode) State.initial))
      = (true, launchModularApp smallEnv 0
          (scanForModularApps (sampleCard smallCode) State.initial)) :=
  ((C5_load_of_loaded_entry_is_noop
    { sd := { apps := AppsDir.missing, openFile := fun _ => none }, mallocOk := false } smallEnv 0
    (launchModularApp smallEnv 0 (scanForModularApps (sampleCard smallCode) State.initial))).1
    (by decide) (by decide)).1

/-! ## C6 -/

theorem unloadAppCode_unloaded (i : Int) (s : State) :
    ((unloadAppCode i s).appRegistry i).loaded = false ∨ ¬ s.validIndex i := by
  refine unloadAppCode_elim i s
    (fun r => (r.appRegistry i).loaded = false ∨ ¬ s.validIndex i) ?_ ?_ ?_
  · intro h; rcases h with h | h
    · exact Or.inr h
    · exact Or.inl h
  · intro p _ _ _; left; simp
  · intro _ _ _; left; simp

/-- C6: for every state and index, a second `unloadAppCode(i)` changes nothing
(the state after two calls is the state after one, the log of `free` calls
included), the two calls together pass at most one address to `free`; and in
every reachable state no address is ever freed twice, and for a valid `i` the
entry ends with `loaded = false` and `codeBuffer = NULL`. -/
theorem C6_unload_twice_is_unload_once (i : Int) (s : State) :
    unloadAppCode i (unloadAppCode i s) = unloadAppCode i s ∧
    ((unloadAppCode i (unloadAppCode i s)).heap.freed = s.heap.freed ∨
      ∃ p : Nat, (s.appRegistry i).codeBuffer = some p ∧
        (unloadAppCode i (unloadAppCode i s)).heap.freed = p :: s.heap.freed) ∧
    (Reachable s →
      (unloadAppCode i (unloadAppCode i s)).heap.freed.Nodup ∧
      (s.validIndex i →
        ((unloadAppCode i (unloadAppCode i s)).appRegistry i).loaded = false ∧
        ((unloadAppCode i (unloadAppCode i s)).appRegistry i).codeBuffer = none)) := by
  have hidem : unloadAppCode i (unloadAppCode i s) = unloadAppCode i s := by
    apply unloadAppCode_noop
    rcases unloadAppCode_unloaded i s with h | h
    · exact Or.inr h
    · left
      unfold State.validIndex at h ⊢
      rw [unloadAppCode_appCount]; exact h
  refine ⟨hidem, ?_, ?_⟩
  · rw [hidem]
    refine unloadAppCode_elim i s (fun r => r.heap.freed = s.heap.freed ∨
      ∃ p : Nat, (s.appRegistry i).codeBuffer = some p ∧ r.heap.freed = p :: s.heap.freed)
      ?_ ?_ ?_
    · intro _; exact Or.inl rfl
    · intro p _ _ hb; exact Or.inr ⟨p, hb, rfl⟩
    · intro _ _ _; exact Or.inl rfl
  · intro hr
    rw [hidem]
    have hr1 : Reachable (unloadAppCode i s) := Reachable.next s (Action.unload i) hr
    refine ⟨(reachable_owned _ hr1).2.2.2, ?_⟩
    intro hv
    have hl : ((unloadAppCode i s).appRegistry i).loaded = false := by
      rcases unloadAppCode_unloaded i s with h | h
      · exact h
      · exact absurd hv h
    have hv1 : (unloadAppCode i s).validIndex i := by
      unfold State.validIndex at hv ⊢
      rw [unloadAppCode_appCount]; exact hv
    refine ⟨hl, ?_⟩
    by_contra hne
    have := ((reachable_coherent _ hr1) i hv1).mp hne
    rw [hl] at this
    exact absurd this (by simp)

/-- Witness for C6: entry 0 of the sample card, loaded by a launch. -/
theorem C6_unload_twice_is_unload_once_witness :
    ((unloadAppCode 0 (unloadAppCode 0 (launchModularApp smallEnv 0
      (scanForModularApps (sampleCard smallCode) State.initial)))).appRegistry 0).loaded = false ∧
    ((unloadAppCode 0 (unloadAppCode 0 (launchModularApp smallEnv 0
      (scanForModularApps (sampleCard smallCode) State.initial)))).appRegistry 0).codeBuffer
        = none :=
  ((C6_unload_twice_is_unload_once 0 (launchModularApp smallEnv 0
      (scanForModularApps (sampleCard smallCode) State.initial))).2.2
    (Reachable.next _ (Action.launch smallEnv 0)
      (Reachable.next _ (Action.scan (sampleCard smallCode)) Reachable.initial))).2
    (by decide)

/-! ## C7 -/

/-- C7: for a reachable state and a valid unloaded entry whose code file opens,
a length above `MAX_APP_CODE_SIZE = 50000` makes `loadAppCode` return false
with the heap untouched and the entry left `loaded = false`,
`codeBuffer = NULL`; a length of at most 50000 makes the result depend on the
allocator alone, so with a granting allocator the load fails if and only if
the length exceeds 50000, and a file of exactly 50000 bytes is accepted. -/
theorem C7_size_limit (env : Env) (i : Int) (s : State) (file : CodeFile)
    (hs : Reachable s) (hv : s.validIndex i) (hl : (s.appRegistry i).loaded = false)
    (ho : env.sd.openFile (s.appRegistry i).filepath = some file) :
    MAX_APP_CODE_SIZE = 50000 ∧
    (file.size > MAX_APP_CODE_SIZE →
      (loadAppCode env i s).1 = false ∧ (loadAppCode env i s).2.heap = s.heap ∧
      ((loadAppCode env i s).2.appRegistry i).loaded = false ∧
      ((loadAppCode env i s).2.appRegistry i).codeBuffer = none) ∧
    (file.size ≤ MAX_APP_CODE_SIZE → (loadAppCode env i s).1 = env.mallocOk) ∧
    (env.mallocOk = true →
      ((loadAppCode env i s).1 = false ↔ file.size > MAX_APP_CODE_SIZE)) ∧
    (file.size = 50000 → env.mallocOk = true → (loadAppCode env i s).1 = true) := by
  have hnull : (s.appRegistry i).codeBuffer = none := by
    by_contra hne
    have := ((reachable_coherent s hs) i hv).mp hne
    rw [hl] at this; exact absurd this (by simp)
  have hsmall : file.size ≤ MAX_APP_CODE_SIZE → (loadAppCode env i s).1 = env.mallocOk := by
    intro hsz
    cases hm : env.mallocOk
    · rw [loadAppCode_allocFails env i s file hv hl ho hsz hm]
    · rw [loadAppCode_success env i s file hv hl ho hsz hm]
  have hbig : file.size > MAX_APP_CODE_SIZE → (loadAppCode env i s).1 = false := by
    intro hsz; rw [loadAppCode_tooLarge env i s file hv hl ho hsz]
  refine ⟨rfl, ?_, hsmall, ?_, ?_⟩
  · intro hsz
    rw [loadAppCode_tooLarge env i s file hv hl ho hsz]
    exact ⟨rfl, rfl, hl, hnull⟩
  · intro hm
    constructor
    · intro hf
      by_contra hsz
      have := hsmall (not_lt.mp hsz)
      rw [hf, hm] at this; exact absurd this (by simp)
    · exact hbig
  · intro hsz hm
    rw [hsmall (by rw [hsz]; exact le_of_eq rfl), hm]

theorem oversizeCode_size : oversizeCode.size = 50001 := List.length_replicate 50001 'x'

/-- Witness for C7: a `calc.code` of 50001 bytes on the sample card. -/
theorem C7_size_limit_witness :
    (loadAppCode { sd := sampleCard oversizeCode, mallocOk := true } 0
      (scanForModularApps (sampleCard oversizeCode) State.initial)).1 = false :=
  ((C7_size_limit { sd := sampleCard oversizeCode, mallocOk := true } 0
      (scanForModularApps (sampleCard oversizeCode) State.initial) oversizeCode
      (Reachable.next _ (Action.scan (sampleCard oversizeCode)) Reachable.initial)
      (by decide) (by decide) rfl).2.1
    (by rw [oversizeCode_size]; decide)).1

/-! ## C8 -/

/-- C8: for an index with `i < 0` or `i ≥ appCount`, `loadAppCode(i)` returns
false, and `loadAppCode`, `launchModularApp` and `unloadAppCode` all leave the
whole state (registry, `appCount`, `currentAppIndex`, heap) unchanged. -/
theorem C8_invalid_index_no_effect (env : Env) (i : Int) (s : State)
    (h : i < 0 ∨ i ≥ s.appCount) :
    loadAppCode env i s = (false, s) ∧ launchModularApp env i s = s ∧
    unloadAppCode i s = s := by
  have hv : ¬ s.validIndex i := by rw [validIndex_iff, not_not]; exact h
  refine ⟨loadAppCode_invalid env i s hv, ?_, unloadAppCode_noop i s (Or.inl hv)⟩
  simp [launchModularApp, h]

/-- Witness for C8: index 5 with the two entries of the sample card. -/
theorem C8_invalid_index_no_effect_witness :
    (scanForModularApps (sampleCard smallCode) State.initial).appCount = 2 ∧
    launchModularApp smallEnv 5 (scanForModularApps (sampleCard smallCode) State.initial)
      = scanForModularApps (sampleCard smallCode) State.initial :=
  ⟨by decide,
   (C8_invalid_index_no_effect smallEnv 5
     (scanForModularApps (sampleCard smallCode) State.initial) (by decide)).2.1⟩

/-! ## C9 -/

theorem read_full (file : CodeFile) (h : file.size ≤ file.delivered) :
    file.read file.size = file.content := by
  unfold CodeFile.read CodeFile.size at *
  rw [min_eq_left h, List.take_length]

theorem loadedHeap_live_full (h : Heap) (content : List Char) :
    (loadedHeap h content.length content).live h.next
      = some (content.map some ++ [some (Char.ofNat 0)]) := by
  simp [loadedHeap, List.replicate_succ', List.drop_append_eq_append_drop,
    List.set_append]

/-- C9: for a valid unloaded entry whose code file opens with a length of at
most 50000, is read in full, and whose allocation is granted, `loadAppCode(i)`
returns true and leaves the entry with `loaded = true`, `codeSize` equal to the
file length, and a buffer whose first `codeSize` bytes are the file content
(followed by the terminator); `launchModularApp(i)` does the same and sets
`currentAppIndex = i`. -/
theorem C9_load_success (env : Env) (i : Int) (s : State) (file : CodeFile)
    (hv : s.validIndex i) (hl : (s.appRegistry i).loaded = false)
    (ho : env.sd.openFile (s.appRegistry i).filepath = some file)
    (hsz : file.size ≤ MAX_APP_CODE_SIZE) (hfull : file.size ≤ file.delivered)
    (hm : env.mallocOk = true) :
    (loadAppCode env i s).1 = true ∧
    ((loadAppCode env i s).2.appRegistry i).loaded = true ∧
    ((loadAppCode env i s).2.appRegistry i).codeSize = file.content.length ∧
    (∃ (p : Nat) (cells : List (Option Char)),
      ((loadAppCode env i s).2.appRegistry i).codeBuffer = some p ∧
      (loadAppCode env i s).2.heap.live p = some cells ∧
      cells = file.content.map some ++ [some (Char.ofNat 0)] ∧
      cells.take file.content.length = file.content.map some) ∧
    (launchModularApp env i s).currentAppIndex = i ∧
    (launchModularApp env i s).appRegistry = (loadAppCode env i s).2.appRegistry ∧
    (launchModularApp env i s).heap = (loadAppCode env i s).2.heap := by
  have hload := loadAppCode_success env i s file hv hl ho hsz hm
  have h1 : (loadAppCode env i s).1 = true := by rw [hload]
  refine ⟨h1, ?_, ?_, ?_, launchModularApp_current env i s h1,
    launchModularApp_appRegistry env i s, ?_⟩
  · rw [hload]; simp
  · rw [hload]; simp [CodeFile.size]
  · refine ⟨s.heap.next, file.content.map some ++ [some (Char.ofNat 0)], ?_, ?_, rfl, ?_⟩
    · rw [hload]; simp
    · rw [hload, read_full file hfull]
      exact loadedHeap_live_full s.heap file.content
    · rw [List.take_left' (by simp)]
  · rw [launchModularApp_eq, if_pos h1]

theorem calcCode_size : calcCode.size = 2000 := List.length_replicate 2000 'x'

/-- Witness for C9: the Calc manifest with a 2000-byte `calc.code` gives
`codeSize = 2000` and active index 0. -/
theorem C9_load_success_witness :
    ((loadAppCode calcEnv 0
      (scanForModularApps (sampleCard calcCode) State.initial)).2.appRegistry 0).codeSize = 2000 ∧
    (launchModularApp calcEnv 0
      (scanForModularApps (sampleCard calcCode) State.initial)).currentAppIndex = 0 := by
  have h := C9_load_success calcEnv 0 (scanForModularApps (sampleCard calcCode) State.initial)
    calcCode (by decide) (by decide) rfl
    (by rw [calcCode_size]; decide)
    (by rw [calcCode_size]; exact le_refl 2000) rfl
  exact ⟨h.2.2.1.trans calcCode_size, h.2.2.2.2.1⟩

/-! ## C10 -/

theorem installable_iff (m : ManifestFields) :
    installable m = true ↔ m.name ≠ [] ∧ m.codefile ≠ [] ∧ m.enabled = true := by
  simp [installable, List.length_pos, and_assoc]

theorem parseLine_enabled_other (m : ManifestFields) (raw : List Char)
    (h : startsWith (trim raw) "enabled=".toList = false) :
    (parseLine m raw).enabled = m.enabled := by
  unfold parseLine
  simp only [h]
  split
  · rfl
  · split
    · rfl
    · split
      · rfl
      · simp

theorem foldl_parseLine_enabled (post : List (List Char))
    (h : ∀ x ∈ post, startsWith (trim x) "enabled=".toList = false) :
    ∀ m : ManifestFields, (post.foldl parseLine m).enabled = m.enabled := by
  induction post with
  | nil => intro m; rfl
  | cons x rest ih =>
    intro m
    rw [List.foldl_cons, ih (fun y hy => h y (List.mem_cons_of_mem x hy)),
      parseLine_enabled_other m x (h x (List.mem_cons_self x rest))]

theorem parseLine_enabled_false (m : ManifestFields) (raw : List Char)
    (h : trim raw = "enabled=false".toList) : (parseLine m raw).enabled = false := by
  unfold parseLine
  rw [h]
  rfl

/-- The registration block stores C strings: a parsed name `ab`, NUL, `cd`
(five bytes, so the guard on `name.length()` passes) is stored as `ab`. -/
theorem registerApp_name_stops_at_nul :
    (parseManifest nulManifest.content).name = ['a', 'b', Char.ofNat 0, 'c', 'd'] ∧
    (scanEntry nulManifest State.initial).appCount = 1 ∧
    ((scanEntry nulManifest State.initial).appRegistry 0).name = "ab".toList := by
  decide

/-- C10 (as stated, refuted): the manifest with the lines `name=A`,
`codefile=a.code`, `enabled=false`, `enabled=true` contains `enabled=false`,
yet the loop body registers it at index 0, with `enabled = true`. -/
theorem C10_manifest_with_enabled_false_line_registered :
    "enabled=false".toList ∈ readLines overriddenManifest.content ∧
    isManifestEntry overriddenManifest = true ∧
    (scanEntry overriddenManifest State.initial).appCount = 1 ∧
    ((scanEntry overriddenManifest State.initial).appRegistry 0).name = "A".toList ∧
    ((scanEntry overriddenManifest State.initial).appRegistry 0).enabled = true ∧
    (scanForModularApps
      { apps := AppsDir.directory [overriddenManifest], openFile := fun _ => none }
      State.initial).appCount = 1 := by
  decide

/-- C10 (amended): while `appCount < MAX_APPS`, the loop handles a non-directory
entry named `*.manifest` by `scanEntry`, which adds a registry entry (at index
`appCount`, incrementing `appCount`) if and only if the parsed name is
non-empty, the parsed codefile is non-empty and the parsed `enabled` is true,
and otherwise leaves registry and `appCount` as they were; in particular a
manifest whose last `enabled=` line is `enabled=false` adds none. -/
theorem C10_manifest_registered_iff_installable (f : DirEntry) (rest : List DirEntry)
    (s : State) (hcap : s.appCount < MAX_APPS) (hdir : f.isDirectory = false)
    (hname : endsWith f.name ".manifest".toList = true) :
    scanLoop (f :: rest) s = scanLoop rest (scanEntry f s) ∧
    ((scanEntry f s).appCount = s.appCount + 1 ↔
      ((parseManifest f.content).name ≠ [] ∧ (parseManifest f.content).codefile ≠ [] ∧
        (parseManifest f.content).enabled = true)) ∧
    (((parseManifest f.content).name ≠ [] ∧ (parseManifest f.content).codefile ≠ [] ∧
        (parseManifest f.content).enabled = true) →
      (scanEntry f s).appCount = s.appCount + 1 ∧
      ((scanEntry f s).appRegistry s.appCount).name
        = (cstr (parseManifest f.content).name).take 31 ∧
      ((scanEntry f s).appRegistry s.appCount).filepath
        = ("/apps/".toList ++ cstr (parseManifest f.content).codefile).take 63 ∧
      ((scanEntry f s).appRegistry s.appCount).enabled = true ∧
      ((scanEntry f s).appRegistry s.appCount).loaded = false) ∧
    (¬ ((parseManifest f.content).name ≠ [] ∧ (parseManifest f.content).codefile ≠ [] ∧
        (parseManifest f.content).enabled = true) →
      (scanEntry f s).appCount = s.appCount ∧
      (scanEntry f s).appRegistry = s.appRegistry) ∧
    (∀ (before after : List (List Char)) (line : List Char),
      readLines f.content = before ++ line :: after →
      trim line = "enabled=false".toList →
      (∀ x ∈ after, startsWith (trim x) "enabled=".toList = false) →
      (scanEntry f s).appCount = s.appCount ∧
      (scanEntry f s).appRegistry = s.appRegistry) := by
  have hguard : (!f.isDirectory && endsWith f.name ".manifest".toList) = true := by
    rw [hdir, hname]; rfl
  have hyes : installable (parseManifest f.content) = true →
      scanEntry f s = registerApp (parseManifest f.content) (s.logOpen f.path) := by
    intro h; rw [scanEntry, if_pos hguard]; exact if_pos h
  have hno : ¬ installable (parseManifest f.content) = true →
      scanEntry f s = s.logOpen f.path := by
    intro h; rw [scanEntry, if_pos hguard]; exact if_neg h
  have hskip : ¬ ((parseManifest f.content).name ≠ [] ∧
      (parseManifest f.content).codefile ≠ [] ∧ (parseManifest f.content).enabled = true) →
      (scanEntry f s).appCount = s.appCount ∧ (scanEntry f s).appRegistry = s.appRegistry := by
    intro h
    rw [← installable_iff] at h
    rw [hno h]
    exact ⟨rfl, rfl⟩
  refine ⟨by simp [scanLoop, hcap], ?_, ?_, hskip, ?_⟩
  · rw [← installable_iff]
    constructor
    · intro h
      by_contra hn
      rw [hno hn] at h
      simp at h
    · intro h
      rw [hyes h]
      simp [registerApp]
  · intro h
    have hen := h.2.2
    rw [← installable_iff] at h
    rw [hyes h]
    simp [registerApp, hen, MAX_APP_NAME]
  · intro before after line hlines hline hafter
    apply hskip
    intro h
    have hen : (parseManifest f.content).enabled = false := by
      unfold parseManifest
      rw [hlines, List.foldl_append, List.foldl_cons, foldl_parseLine_enabled after hafter]
      exact parseLine_enabled_false _ line hline
    rw [hen] at h
    exact absurd h.2.2 (by simp)

/-- Witness for C10 (amended): the Calc manifest is registered by the first
loop step. -/
theorem C10_manifest_registered_iff_installable_witness :
    (scanEntry calcManifest State.initial).appCount = 1 ∧
    ((scanEntry calcManifest State.initial).appRegistry 0).name = "Calc".toList := by
  have h := (C10_manifest_registered_iff_installable calcManifest [notesManifest] State.initial
    (by decide) (by decide) (by decide)).2.2.1 (by decide)
  exact ⟨h.1, h.2.1⟩

/-! ## C11 -/

theorem scanEntry_accepted (f : DirEntry) (s : State) (h : acceptedEntry f = true) :
    scanEntry f s = registerApp (parseManifest f.content) (s.logOpen f.path) := by
  unfold acceptedEntry isManifestEntry at h
  rw [Bool.and_eq_true] at h
  rw [scanEntry, if_pos h.1]
  exact if_pos h.2

theorem scanEntry_rejected (f : DirEntry) (s : State) (h : acceptedEntry f = false) :
    (scanEntry f s).appCount = s.appCount ∧ (scanEntry f s).appRegistry = s.appRegistry := by
  unfold acceptedEntry isManifestEntry at h
  unfold scanEntry
  by_cases hm : (!f.isDirectory && endsWith f.name ".manifest".toList) = true
  · rw [hm, Bool.true_and] at h
    rw [if_pos hm]
    simp only [h]
    exact ⟨rfl, rfl⟩
  · rw [if_neg hm]
    exact ⟨rfl, rfl⟩

theorem registerApp_descriptor (f : DirEntry) (s : State) (h : acceptedEntry f = true) :
    IsDescriptorOf ((registerApp (parseManifest f.content) (s.logOpen f.path)).appRegistry
      s.appCount) f := by
  have hen : (parseManifest f.content).enabled = true := by
    unfold acceptedEntry at h
    rw [Bool.and_eq_true] at h
    exact ((installable_iff _).mp h.2).2.2
  simp [IsDescriptorOf, registerApp, hen, MAX_APP_NAME]

/-- The scan loop from a state with `appCount` within `[0, MAX_APPS]`. -/
theorem scanLoop_spec (entries : List DirEntry) :
    ∀ s : State, 0 ≤ s.appCount → s.appCount ≤ MAX_APPS →
      (scanLoop entries s).appCount
        = min MAX_APPS (s.appCount + ((entries.filter acceptedEntry).length : Int)) ∧
      (∀ i : Int, i < s.appCount → (scanLoop entries s).appRegistry i = s.appRegistry i) ∧
      (∀ (k : Nat) (f : DirEntry), (entries.filter acceptedEntry)[k]? = some f →
        s.appCount + (k : Int) < MAX_APPS →
        IsDescriptorOf ((scanLoop entries s).appRegistry (s.appCount + (k : Int))) f) := by
  induction entries with
  | nil =>
    intro s _ h20
    refine ⟨?_, fun _ _ => rfl, ?_⟩
    · simp [scanLoop]; exact h20
    · intro k f hk; simp at hk
  | cons f rest ih =>
    intro s h0 h20
    by_cases hlt : s.appCount < MAX_APPS
    · have hstep : scanLoop (f :: rest) s = scanLoop rest (scanEntry f s) := by
        simp [scanLoop, hlt]
      rw [hstep]
      cases hacc : acceptedEntry f
      · obtain ⟨hc, hr⟩ := scanEntry_rejected f s hacc
        obtain ⟨ih1, ih2, ih3⟩ := ih (scanEntry f s) (by rw [hc]; exact h0) (by rw [hc]; exact h20)
        rw [hc] at ih1 ih2 ih3
        rw [hr] at ih2
        have hfilter : (f :: rest).filter acceptedEntry = rest.filter acceptedEntry := by
          simp [List.filter_cons, hacc]
        rw [hfilter]
        exact ⟨ih1, ih2, ih3⟩
      · have hreg := scanEntry_accepted f s hacc
        have hc : (scanEntry f s).appCount = s.appCount + 1 := by
          rw [hreg]; simp [registerApp]
        have hle : s.appCount + 1 ≤ MAX_APPS := by omega
        obtain ⟨ih1, ih2, ih3⟩ := ih (scanEntry f s) (by rw [hc]; omega) (by rw [hc]; exact hle)
        rw [hc] at ih1 ih2 ih3
        have hfilter : (f :: rest).filter acceptedEntry = f :: rest.filter acceptedEntry := by
          simp [List.filter_cons, hacc]
        rw [hfilter]
        refine ⟨?_, ?_, ?_⟩
        · rw [ih1]; simp only [List.length_cons]; push_cast; congr 1; ring
        · intro i hi
          rw [ih2 i (by omega), hreg]
          simp only [registerApp, logOpen_appRegistry, logOpen_appCount]
          exact Function.update_noteq (ne_of_lt hi) _ _
        · intro k g hk hbound
          cases k with
          | zero =>
            simp at hk
            subst hk
            simp only [Nat.cast_zero, add_zero]
            rw [ih2 s.appCount (by omega), hreg]
            exact registerApp_descriptor f s hacc
          | succ k =>
            simp at hk
            have := ih3 k g hk (by push_cast at hbound; omega)
            have hidx : s.appCount + ((k + 1 : Nat) : Int) = s.appCount + 1 + (k : Int) := by
              push_cast; ring
            rw [hidx]; exact this
    · have hEq : s.appCount = MAX_APPS := le_antisymm h20 (not_lt.mp hlt)
      have hstop : scanLoop (f :: rest) s = s := by simp [scanLoop, hlt]
      rw [hstop]
      refine ⟨?_, fun _ _ => rfl, ?_⟩
      · rw [hEq]; simp
      · intro k g _ hbound
        rw [hEq] at hbound
        have : (0 : Int) ≤ (k : Int) := Int.natCast_nonneg k
        omega

/-- C11: when `/apps` is a directory listing `entries`, the registry after
`scanForModularApps` has `appCount = min(20, k)`, `k` being the number of
entries that are installable manifests, and for every `n < 20` the entry at
index `n` is the descriptor of the `n`-th installable manifest in directory
order; installable manifests beyond the 20th leave no trace and the scan
still returns. -/
theorem C11_scan_registers_first_installable_in_order (sd : SDCard) (s : State)
    (entries : List DirEntry) (hdir : sd.apps = AppsDir.directory entries) :
    (scanForModularApps sd s).appCount
      = min 20 ((entries.filter acceptedEntry).length : Int) ∧
    (∀ (n : Nat) (f : DirEntry), (entries.filter acceptedEntry)[n]? = some f → n < 20 →
      IsDescriptorOf ((scanForModularApps sd s).appRegistry (n : Int)) f) ∧
    (20 ≤ (entries.filter acceptedEntry).length → (scanForModularApps sd s).appCount = 20) := by
  have hscan : scanForModularApps sd s
      = scanLoop entries ({ s with appCount := 0 }.logOpen "/apps".toList) := by
    unfold scanForModularApps
    rw [hdir]
  obtain ⟨h1, _, h3⟩ := scanLoop_spec entries ({ s with appCount := 0 }.logOpen "/apps".toList)
    (le_refl _) (by simp [MAX_APPS])
  have hcount : (scanForModularApps sd s).appCount
      = min 20 ((entries.filter acceptedEntry).length : Int) := by
    rw [hscan, h1]
    simp [MAX_APPS]
  refine ⟨hcount, ?_, ?_⟩
  · intro n f hn hlt
    have := h3 n f hn (by simp [MAX_APPS]; omega)
    rw [hscan]
    simpa using this
  · intro hk
    rw [hcount]
    apply min_eq_left
    exact_mod_cast hk

/-- Witness for C11: the sample card registers Calc at index 0 and Notes at
index 1. -/
theorem C11_scan_registers_first_installable_in_order_witness :
    (scanForModularApps (sampleCard smallCode) State.initial).appCount = 2 ∧
    IsDescriptorOf ((scanForModularApps (sampleCard smallCode) State.initial).appRegistry 1)
      notesManifest := by
  have h := C11_scan_registers_first_installable_in_order (sampleCard smallCode) State.initial
    [calcManifest, notesManifest] rfl
  exact ⟨h.1.trans (by decide), h.2.1 1 notesManifest rfl (by decide)⟩

/-! ## C12 -/

/-- C12: when `/apps` cannot be opened or is not a directory,
`scanForModularApps` returns with `appCount = 0`, whatever the prior state;
the registry array, `currentAppIndex` and the heap are left as they were. -/
theorem C12_scan_without_apps_directory (sd : SDCard) (s : State)
    (h : sd.apps = AppsDir.missing ∨ sd.apps = AppsDir.notDirectory) :
    (scanForModularApps sd s).appCount = 0 ∧
    (scanForModularApps sd s).appRegistry = s.appRegistry ∧
    (scanForModularApps sd s).currentAppIndex = s.currentAppIndex ∧
    (scanForModularApps sd s).heap = s.heap := by
  unfold scanForModularApps
  rcases h with h | h <;> rw [h] <;> exact ⟨rfl, rfl, rfl, rfl⟩

/-- Witness for C12: a card without `/apps`, scanned after a launch. -/
theorem C12_scan_without_apps_directory_witness :
    (scanForModularApps emptyCard (launchModularApp smallEnv 0
      (scanForModularApps (sampleCard smallCode) State.initial))).appCount = 0 :=
  (C12_scan_without_apps_directory emptyCard _ (Or.inl rfl)).1

/-! ## C13 -/

theorem unloaded_has_no_buffer (s : State) (i : Int) (hs : Reachable s) (hv : s.validIndex i)
    (hl : (s.appRegistry i).loaded = false) : (s.appRegistry i).codeBuffer = none := by
  by_contra hne
  have := ((reachable_coherent s hs) i hv).mp hne
  rw [hl] at this; exact absurd this (by simp)

/-- C13: for a reachable state and a valid unloaded entry `i`, if the code file
cannot be opened, or the allocator refuses the request, `loadAppCode(i)`
returns false and the entry is left with `loaded = false` and
`codeBuffer = NULL`, and `launchModularApp(i)` leaves `currentAppIndex`
unchanged. -/
theorem C13_load_failure_leaves_entry_unloaded (env : Env) (i : Int) (s : State)
    (hs : Reachable s) (hv : s.validIndex i) (hl : (s.appRegistry i).loaded = false)
    (hfail : env.sd.openFile (s.appRegistry i).filepath = none ∨ env.mallocOk = false) :
    (loadAppCode env i s).1 = false ∧
    ((loadAppCode env i s).2.appRegistry i).loaded = false ∧
    ((loadAppCode env i s).2.appRegistry i).codeBuffer = none ∧
    (launchModularApp env i s).currentAppIndex = s.currentAppIndex ∧
    ((launchModularApp env i s).appRegistry i).loaded = false := by
  have hnull := unloaded_has_no_buffer s i hs hv hl
  have key : (loadAppCode env i s).1 = false ∧
      ((loadAppCode env i s).2.appRegistry i).loaded = false ∧
      ((loadAppCode env i s).2.appRegistry i).codeBuffer = none ∧
      (loadAppCode env i s).2.currentAppIndex = s.currentAppIndex := by
    cases ho : env.sd.openFile (s.appRegistry i).filepath with
    | none =>
      rw [loadAppCode_openFails env i s hv hl ho]
      exact ⟨rfl, hl, hnull, rfl⟩
    | some file =>
      have hm : env.mallocOk = false := by
        rcases hfail with h | h
        · rw [ho] at h; exact absurd h (by simp)
        · exact h
      by_cases hsz : file.size ≤ MAX_APP_CODE_SIZE
      · rw [loadAppCode_allocFails env i s file hv hl ho hsz hm]
        simp [hl]
      · rw [loadAppCode_tooLarge env i s file hv hl ho (not_le.mp hsz)]
        exact ⟨rfl, hl, hnull, rfl⟩
  obtain ⟨k1, k2, k3, k4⟩ := key
  have hlaunch : launchModularApp env i s = (loadAppCode env i s).2 := by
    rw [launchModularApp_eq, if_neg (by rw [k1]; simp)]
  exact ⟨k1, k2, k3, by rw [hlaunch]; exact k4, by rw [hlaunch]; exact k2⟩

/-- Witness for C13: the sample directory on a card where no code file opens. -/
theorem C13_load_failure_leaves_entry_unloaded_witness :
    (loadAppCode { sd := emptyCard, mallocOk := true } 0
      (scanForModularApps (sampleCard smallCode) State.initial)).1 = false ∧
    (launchModularApp { sd := emptyCard, mallocOk := true } 0
      (scanForModularApps (sampleCard smallCode) State.initial)).currentAppIndex = -1 := by
  have h := C13_load_failure_leaves_entry_unloaded { sd := emptyCard, mallocOk := true } 0
    (scanForModularApps (sampleCard smallCode) State.initial)
    (Reachable.next _ (Action.scan (sampleCard smallCode)) Reachable.initial)
    (by decide) (by decide) (Or.inl rfl)
  exact ⟨h.1, h.2.2.2.1⟩

/-! ## C14 -/

/-- C14 (code defect, evaluated): `calc.code` has five bytes and the read
delivers two; `loadAppCode(0)` still returns true and marks the entry loaded
with `codeSize = 5`, the buffer holding the two bytes read, three cells never
written, and the terminator. -/
theorem C14_short_read_still_reports_loaded :
    shortReadCode.size = 5 ∧ shortReadCode.read shortReadCode.size = "he".toList ∧
    (loadAppCode { sd := sampleCard shortReadCode, mallocOk := true } 0
      (scanForModularApps (sampleCard shortReadCode) State.initial)).1 = true ∧
    ((loadAppCode { sd := sampleCard shortReadCode, mallocOk := true } 0
      (scanForModularApps (sampleCard shortReadCode) State.initial)).2.appRegistry 0).loaded
        = true ∧
    ((loadAppCode { sd := sampleCard shortReadCode, mallocOk := true } 0
      (scanForModularApps (sampleCard shortReadCode) State.initial)).2.appRegistry 0).codeSize
        = 5 ∧
    (loadAppCode { sd := sampleCard shortReadCode, mallocOk := true } 0
      (scanForModularApps (sampleCard shortReadCode) State.initial)).2.heap.live 1
        = some [some 'h', some 'e', none, none, none, some (Char.ofNat 0)] := by
  decide

/-! ## C15 -/

theorem scanEntry_currentAppIndex (f : DirEntry) (s : State) :
    (scanEntry f s).currentAppIndex = s.currentAppIndex := by
  unfold scanEntry
  split
  · simp only; split <;> rfl
  · rfl

theorem scan_currentAppIndex (sd : SDCard) (s : State) :
    (scanForModularApps sd s).currentAppIndex = s.currentAppIndex := by
  unfold scanForModularApps
  split
  · exact scanLoop_induction (fun u => u.currentAppIndex = s.currentAppIndex)
      (fun f u hu _ => (scanEntry_currentAppIndex f u).trans hu) _ _ rfl
  · rfl

theorem closeCurrentApp_active (s : State) (h : 0 ≤ s.currentAppIndex) :
    closeCurrentApp s = { unloadAppCode s.currentAppIndex s with currentAppIndex := -1 } := by
  unfold closeCurrentApp
  rw [if_pos (by exact h)]

/-- C15: in a reachable state with an active module (`currentAppIndex = i`,
`0 ≤ i < appCount`), the close action leaves entry `i` with `loaded = false`
and `codeBuffer = NULL`, frees the buffer the entry held, and sets
`currentAppIndex = -1`, which the rescan that ends the BACK handler keeps;
with no active module (`currentAppIndex < 0`) the close action changes
nothing. -/
theorem C15_close_action (s : State) (hs : Reachable s) :
    (s.validIndex s.currentAppIndex →
      ((closeCurrentApp s).appRegistry s.currentAppIndex).loaded = false ∧
      ((closeCurrentApp s).appRegistry s.currentAppIndex).codeBuffer = none ∧
      (∀ p : Nat, (s.appRegistry s.currentAppIndex).loaded = true →
        (s.appRegistry s.currentAppIndex).codeBuffer = some p →
        (closeCurrentApp s).heap.live p = none ∧ (closeCurrentApp s).heap.freed = p :: s.heap.freed) ∧
      (closeCurrentApp s).currentAppIndex = -1 ∧
      ∀ sd : SDCard, (backButtonHandler sd s).currentAppIndex = -1) ∧
    (s.currentAppIndex < 0 → closeCurrentApp s = s) := by
  constructor
  · intro hv
    have hact := closeCurrentApp_active s hv.1
    have hr1 : Reachable (unloadAppCode s.currentAppIndex s) :=
      Reachable.next s (Action.unload s.currentAppIndex) hs
    have hv1 : (unloadAppCode s.currentAppIndex s).validIndex s.currentAppIndex := by
      unfold State.validIndex at hv ⊢
      rw [unloadAppCode_appCount]; exact hv
    have hl : ((unloadAppCode s.currentAppIndex s).appRegistry s.currentAppIndex).loaded
        = false := by
      rcases unloadAppCode_unloaded s.currentAppIndex s with h | h
      · exact h
      · exact absurd hv h
    refine ⟨?_, ?_, ?_, ?_, ?_⟩
    · rw [hact]; exact hl
    · rw [hact]; exact unloaded_has_no_buffer (unloadAppCode s.currentAppIndex s) _ hr1 hv1 hl
    · intro p hp hb
      rw [hact, unloadAppCode_free s.currentAppIndex s p hv hp hb]
      simp [Heap.free]
    · rw [hact]
    · intro sd
      unfold backButtonHandler createModularAppLauncher
      rw [scan_currentAppIndex, hact]
  · intro hneg
    unfold closeCurrentApp
    rw [if_neg (by omega)]

/-- Witness for C15: entry 0 of the sample card is active after a launch. -/
theorem C15_close_action_witness :
    ((closeCurrentApp (launchModularApp smallEnv 0
      (scanForModularApps (sampleCard smallCode) State.initial))).appRegistry 0).loaded = false ∧
    (closeCurrentApp (launchModularApp smallEnv 0
      (scanForModularApps (sampleCard smallCode) State.initial))).currentAppIndex = -1 := by
  have h := (C15_close_action (launchModularApp smallEnv 0
      (scanForModularApps (sampleCard smallCode) State.initial))
    (Reachable.next _ (Action.launch smallEnv 0)
      (Reachable.next _ (Action.scan (sampleCard smallCode)) Reachable.initial))).1
    (by decide)
  exact ⟨h.1, h.2.2.2.1⟩

/-! ## C16 -/

theorem startsWith_enabled_excludes (l : List Char)
    (h : startsWith l "enabled=".toList = true) :
    startsWith l "name=".toList = false ∧ startsWith l "description=".toList = false ∧
    startsWith l "codefile=".toList = false := by
  cases l with
  | nil => simp [startsWith] at h
  | cons c cs =>
    have hc : c = 'e' := by
      have := h
      simp [startsWith, List.isPrefixOf] at this
      exact this.1.symm
    subst hc
    refine ⟨?_, ?_, ?_⟩ <;> simp [startsWith, List.isPrefixOf]

theorem parseLine_enabled (m : ManifestFields) (raw : List Char) :
    (parseLine m raw).enabled =
      if startsWith (trim raw) "enabled=".toList = true then
        decide (substring (trim raw) 8 = "true".toList)
      else m.enabled := by
  by_cases h : startsWith (trim raw) "enabled=".toList = true
  · obtain ⟨h1, h2, h3⟩ := startsWith_enabled_excludes _ h
    rw [if_pos h]
    unfold parseLine
    simp only [h, h1, h2, h3]
    rfl
  · rw [if_neg h]
    exact parseLine_enabled_other m raw (by simpa using h)

theorem parseSDAppLine_enabled (m : SDAppFields) (raw : List Char) :
    (parseSDAppLine m raw).enabled =
      if startsWith (trim raw) "enabled=".toList = true then
        decide (substring (trim raw) 8 = "true".toList)
      else m.enabled := by
  by_cases h : startsWith (trim raw) "enabled=".toList = true
  · obtain ⟨h1, h2, _⟩ := startsWith_enabled_excludes _ h
    rw [if_pos h]
    unfold parseSDAppLine
    simp only [h, h1, h2]
    rfl
  · rw [if_neg h]
    have h' : startsWith (trim raw) "enabled=".toList = false := by simpa using h
    unfold parseSDAppLine
    simp only [h']
    split
    · rfl
    · split
      · rfl
      · simp

theorem foldl_enabled_agree (lines : List (List Char)) :
    ∀ (m : ManifestFields) (a : SDAppFields), m.enabled = a.enabled →
      (lines.foldl parseLine m).enabled = (lines.foldl parseSDAppLine a).enabled := by
  induction lines with
  | nil => intro m a h; exact h
  | cons x rest ih =>
    intro m a h
    rw [List.foldl_cons, List.foldl_cons]
    apply ih
    rw [parseLine_enabled, parseSDAppLine_enabled, h]

/-- C16: for every sequence of lines, and so for every file content, the
`enabled` flag computed by the `.manifest` loop of `scanForModularApps` equals
the one computed by the `.app` loop of `scanSDCardApps`; on an `enabled=` line
both set the flag to whether the rest of the trimmed line is exactly `true`. -/
theorem C16_enabled_flag_same_in_both_scanners (lines : List (List Char))
    (content raw : List Char) (m : ManifestFields) (a : SDAppFields) :
    (lines.foldl parseLine ManifestFields.initial).enabled
      = (lines.foldl parseSDAppLine SDAppFields.initial).enabled ∧
    (parseManifest content).enabled = (parseSDApp content).enabled ∧
    (startsWith (trim raw) "enabled=".toList = true →
      (parseLine m raw).enabled = decide ((trim raw).drop 8 = "true".toList) ∧
      (parseSDAppLine a raw).enabled = decide ((trim raw).drop 8 = "true".toList)) := by
  refine ⟨foldl_enabled_agree lines _ _ rfl, foldl_enabled_agree _ _ _ rfl, ?_⟩
  intro h
  rw [parseLine_enabled, parseSDAppLine_enabled, if_pos h, if_pos h]
  exact ⟨rfl, rfl⟩

/-- Witness for C16: the line `enabled=true` read into both loops. -/
theorem C16_enabled_flag_same_in_both_scanners_witness :
    (parseLine { ManifestFields.initial with enabled := false } "enabled=true".toList).enabled
      = true ∧
    (parseSDAppLine { SDAppFields.initial with enabled := false } "enabled=true".toList).enabled
      = true := by
  have h := (C16_enabled_flag_same_in_both_scanners [] [] "enabled=true".toList
    { ManifestFields.initial with enabled := false }
    { SDAppFields.initial with enabled := false }).2.2 (by decide)
  exact ⟨h.1.trans (by decide), h.2.trans (by decide)⟩

/-! ## C17 -/

theorem loadAppCode_currentAppIndex (env : Env) (i : Int) (s : State) :
    (loadAppCode env i s).2.currentAppIndex = s.currentAppIndex := by
  refine loadAppCode_elim env i s (fun r => r.2.currentAppIndex = s.currentAppIndex)
    ?_ ?_ ?_ ?_ ?_ <;> intros <;> rfl

theorem unloadAppCode_currentAppIndex (i : Int) (s : State) :
    (unloadAppCode i s).currentAppIndex = s.currentAppIndex := by
  refine unloadAppCode_elim i s (fun r => r.currentAppIndex = s.currentAppIndex) ?_ ?_ ?_ <;>
    intros <;> rfl

theorem launchModularApp_currentInRange (env : Env) (i : Int) (s : State)
    (h : CurrentInRange s) : CurrentInRange (launchModularApp env i s) := by
  unfold CurrentInRange State.validIndex at *
  rw [launchModularApp_appCount]
  by_cases hload : (loadAppCode env i s).1 = true
  · rw [launchModularApp_current env i s hload]
    exact Or.inr (loadAppCode_true_loaded env i s hload).1
  · have : (launchModularApp env i s).currentAppIndex = s.currentAppIndex := by
      rw [launchModularApp_eq, if_neg hload]
      exact loadAppCode_currentAppIndex env i s
    rw [this]; exact h

theorem closeCurrentApp_idle (s : State) (h : CurrentInRange s) :
    (closeCurrentApp s).currentAppIndex = -1 := by
  unfold closeCurrentApp
  split
  · rfl
  · rename_i hneg
    rcases h with h | h
    · exact h
    · exact absurd h.1 hneg

/-- C17 (code defect, evaluated): a scan of the sample card,
`launchModularApp(0)`, then a scan while `/apps` cannot be opened end with
`appCount = 0` and `currentAppIndex = 0`, which is neither `-1` nor below
`appCount`: `scanForModularApps` rebuilds the registry without closing the
active module, unlike the BACK handler, which resets `currentAppIndex` before
it rescans. -/
theorem C17_rescan_leaves_index_out_of_range :
    ¬ CurrentInRange (run State.initial
        [Action.scan (sampleCard smallCode), Action.launch smallEnv 0,
         Action.scan emptyCard]) := by
  intro h
  rcases h with h | h
  · exact absurd h (by decide)
  · exact absurd h.2 (by decide)

/-- As long as every scan is issued while no module is active
(`currentAppIndex = -1`), as on the BACK path, `currentAppIndex` is `-1` or
satisfies `0 ≤ currentAppIndex < appCount`, whatever launches and BACK presses
occur. -/
theorem currentInRange_of_idle_scans (s : State) (h : IdleScanReachable s) :
    s.currentAppIndex = -1 ∨ (0 ≤ s.currentAppIndex ∧ s.currentAppIndex < s.appCount) := by
  have key : CurrentInRange s := by
    induction h with
    | initial => exact Or.inl rfl
    | scan sd s _ hidle _ =>
      left; rw [scan_currentAppIndex]; exact hidle
    | launch env i s _ ih => exact launchModularApp_currentInRange env i s ih
    | back sd s _ ih =>
      left
      unfold backButtonHandler createModularAppLauncher
      rw [scan_currentAppIndex]
      exact closeCurrentApp_idle s ih
  exact key

/-- An instance of `currentInRange_of_idle_scans`: scan, launch 0, launch 1 on
the sample card. -/
theorem currentInRange_of_idle_scans_example :
    (launchModularApp smallEnv 1 (launchModularApp smallEnv 0
      (scanForModularApps (sampleCard smallCode) State.initial))).currentAppIndex = -1 ∨
    (0 ≤ (launchModularApp smallEnv 1 (launchModularApp smallEnv 0
      (scanForModularApps (sampleCard smallCode) State.initial))).currentAppIndex ∧
     (launchModularApp smallEnv 1 (launchModularApp smallEnv 0
      (scanForModularApps (sampleCard smallCode) State.initial))).currentAppIndex
       < (launchModularApp smallEnv 1 (launchModularApp smallEnv 0
      (scanForModularApps (sampleCard smallCode) State.initial))).appCount) :=
  currentInRange_of_idle_scans _
    (IdleScanReachable.launch smallEnv 1 _
      (IdleScanReachable.launch smallEnv 0 _
        (IdleScanReachable.scan (sampleCard smallCode) _ IdleScanReachable.initial
          (by decide))))

/-! ## C18 -/

/-- C18: in every state reached from the initial state by any finite sequence
of `scanForModularApps`, `loadAppCode`, `unloadAppCode`, `launchModularApp`
and the BACK handler (failed loads included), every registry entry below
`appCount` has `codeBuffer` non-NULL if and only if `loaded = true`. -/
theorem C18_buffer_present_iff_loaded (acts : List Action) (i : Int)
    (hi : (run State.initial acts).validIndex i) :
    (((run State.initial acts).appRegistry i).codeBuffer ≠ none ↔
      ((run State.initial acts).appRegistry i).loaded = true) :=
  reachable_coherent _ (reachable_run acts State.initial Reachable.initial) i hi

/-- Witness for C18: a launch whose allocation is refused, then a launch that
succeeds, then an unload; entry 0. -/
theorem C18_buffer_present_iff_loaded_witness :
    (((run State.initial
        [Action.scan (sampleCard smallCode),
         Action.launch { sd := sampleCard smallCode, mallocOk := false } 0,
         Action.load smallEnv 1, Action.unload 1]).appRegistry 0).codeBuffer ≠ none ↔
      ((run State.initial
        [Action.scan (sampleCard smallCode),
         Action.launch { sd := sampleCard smallCode, mallocOk := false } 0,
         Action.load smallEnv 1, Action.unload 1]).appRegistry 0).loaded = true) :=
  C18_buffer_present_iff_loaded _ 0 (by decide)

/-! ## C19 -/

theorem loadAppCode_identity (env : Env) (i j : Int) (s : State) :
    ((loadAppCode env i s).2.appRegistry j).name = (s.appRegistry j).name ∧
    ((loadAppCode env i s).2.appRegistry j).description = (s.appRegistry j).description ∧
    ((loadAppCode env i s).2.appRegistry j).filepath = (s.appRegistry j).filepath ∧
    ((loadAppCode env i s).2.appRegistry j).enabled = (s.appRegistry j).enabled := by
  by_cases hji : j = i
  · subst hji
    refine loadAppCode_elim env j s (fun r =>
      (r.2.appRegistry j).name = (s.appRegistry j).name ∧
      (r.2.appRegistry j).description = (s.appRegistry j).description ∧
      (r.2.appRegistry j).filepath = (s.appRegistry j).filepath ∧
      (r.2.appRegistry j).enabled = (s.appRegistry j).enabled) ?_ ?_ ?_ ?_ ?_ <;>
      intros <;> simp
  · rw [loadAppCode_other env i j s hji]
    exact ⟨rfl, rfl, rfl, rfl⟩

theorem unloadAppCode_other (i k : Int) (s : State) (hk : k ≠ i) :
    (unloadAppCode i s).appRegistry k = s.appRegistry k := by
  refine unloadAppCode_elim i s (fun r => r.appRegistry k = s.appRegistry k) ?_ ?_ ?_
  · intro _; rfl
  · intro p _ _ _; simp [Function.update_noteq hk]
  · intro _ _ _; simp [Function.update_noteq hk]

theorem unloadAppCode_identity (i j : Int) (s : State) :
    ((unloadAppCode i s).appRegistry j).name = (s.appRegistry j).name ∧
    ((unloadAppCode i s).appRegistry j).description = (s.appRegistry j).description ∧
    ((unloadAppCode i s).appRegistry j).filepath = (s.appRegistry j).filepath ∧
    ((unloadAppCode i s).appRegistry j).enabled = (s.appRegistry j).enabled := by
  by_cases hji : j = i
  · subst hji
    refine unloadAppCode_elim j s (fun r =>
      (r.appRegistry j).name = (s.appRegistry j).name ∧
      (r.appRegistry j).description = (s.appRegistry j).description ∧
      (r.appRegistry j).filepath = (s.appRegistry j).filepath ∧
      (r.appRegistry j).enabled = (s.appRegistry j).enabled) ?_ ?_ ?_ <;>
      intros <;> simp
  · rw [unloadAppCode_other i j s hji]
    exact ⟨rfl, rfl, rfl, rfl⟩

/-- C19: for every state, card, allocator answer and index `i`, `loadAppCode(i)`
and `unloadAppCode(i)` leave `appCount` and `currentAppIndex` unchanged, leave
`name`, `description`, `filepath` and `enabled` of every entry unchanged, and
leave every entry `j ≠ i` unchanged in all its fields. -/
theorem C19_load_unload_frame (env : Env) (i : Int) (s : State) :
    ((loadAppCode env i s).2.appCount = s.appCount ∧
     (loadAppCode env i s).2.currentAppIndex = s.currentAppIndex ∧
     (∀ j : Int,
       ((loadAppCode env i s).2.appRegistry j).name = (s.appRegistry j).name ∧
       ((loadAppCode env i s).2.appRegistry j).description = (s.appRegistry j).description ∧
       ((loadAppCode env i s).2.appRegistry j).filepath = (s.appRegistry j).filepath ∧
       ((loadAppCode env i s).2.appRegistry j).enabled = (s.appRegistry j).enabled) ∧
     (∀ j : Int, j ≠ i → (loadAppCode env i s).2.appRegistry j = s.appRegistry j)) ∧
    ((unloadAppCode i s).appCount = s.appCount ∧
     (unloadAppCode i s).currentAppIndex = s.currentAppIndex ∧
     (∀ j : Int,
       ((unloadAppCode i s).appRegistry j).name = (s.appRegistry j).name ∧
       ((unloadAppCode i s).appRegistry j).description = (s.appRegistry j).description ∧
       ((unloadAppCode i s).appRegistry j).filepath = (s.appRegistry j).filepath ∧
       ((unloadAppCode i s).appRegistry j).enabled = (s.appRegistry j).enabled) ∧
     (∀ j : Int, j ≠ i → (unloadAppCode i s).appRegistry j = s.appRegistry j)) :=
  ⟨⟨loadAppCode_appCount env i s, loadAppCode_currentAppIndex env i s,
     fun j => loadAppCode_identity env i j s, fun j hj => loadAppCode_other env i j s hj⟩,
   ⟨unloadAppCode_appCount i s, unloadAppCode_currentAppIndex i s,
     fun j => unloadAppCode_identity i j s, fun j hj => unloadAppCode_other i j s hj⟩⟩

/-- Witness for C19: loading entry 0 of the sample card leaves entry 1 as it
was. -/
theorem C19_load_unload_frame_witness :
    (loadAppCode smallEnv 0
      (scanForModularApps (sampleCard smallCode) State.initial)).2.appRegistry 1
      = (scanForModularApps (sampleCard smallCode) State.initial).appRegistry 1 :=
  (C19_load_unload_frame smallEnv 0
    (scanForModularApps (sampleCard smallCode) State.initial)).1.2.2.2 1 (by decide)

/-! ## C20 -/

theorem parseLine_unrecognised (m : ManifestFields) (raw : List Char)
    (h : unrecognised raw = true) : parseLine m raw = m := by
  unfold unrecognised at h
  simp only [Bool.and_eq_true, Bool.not_eq_true'] at h
  obtain ⟨⟨⟨h1, h2⟩, h3⟩, h4⟩ := h
  unfold parseLine
  simp only [h1, h2, h3, h4, Bool.false_eq_true, if_false]

theorem foldl_parseLine_unrecognised (junk : List (List Char))
    (h : ∀ x ∈ junk, unrecognised x = true) :
    ∀ m : ManifestFields, junk.foldl parseLine m = m := by
  induction junk with
  | nil => intro m; rfl
  | cons x rest ih =>
    intro m
    rw [List.foldl_cons, parseLine_unrecognised m x (h x (List.mem_cons_self x rest))]
    exact ih (fun y hy => h y (List.mem_cons_of_mem x hy)) m

theorem foldl_parseLine_filter (lines : List (List Char)) :
    ∀ m : ManifestFields,
      (lines.filter (fun x => !unrecognised x)).foldl parseLine m = lines.foldl parseLine m := by
  induction lines with
  | nil => intro m; rfl
  | cons x rest ih =>
    intro m
    cases hx : unrecognised x
    · simp only [List.filter_cons, hx, Bool.not_false, if_true, List.foldl_cons]
      exact ih _
    · simp only [List.filter_cons, hx, Bool.not_true, List.foldl_cons]
      rw [parseLine_unrecognised m x hx]
      exact ih m

theorem parseLine_name_other (m : ManifestFields) (raw : List Char)
    (h : startsWith (trim raw) "name=".toList = false) : (parseLine m raw).name = m.name := by
  unfold parseLine
  simp only [h, Bool.false_eq_true, if_false]
  split_ifs <;> rfl

theorem parseLine_codefile_other (m : ManifestFields) (raw : List Char)
    (h : startsWith (trim raw) "codefile=".toList = false) :
    (parseLine m raw).codefile = m.codefile := by
  unfold parseLine
  simp only [h, Bool.false_eq_true, if_false]
  split_ifs <;> rfl

theorem foldl_parseLine_name (lines : List (List Char))
    (h : ∀ x ∈ lines, startsWith (trim x) "name=".toList = false) :
    ∀ m : ManifestFields, (lines.foldl parseLine m).name = m.name := by
  induction lines with
  | nil => intro m; rfl
  | cons x rest ih =>
    intro m
    rw [List.foldl_cons, ih (fun y hy => h y (List.mem_cons_of_mem x hy)),
      parseLine_name_other m x (h x (List.mem_cons_self x rest))]

theorem foldl_parseLine_codefile (lines : List (List Char))
    (h : ∀ x ∈ lines, startsWith (trim x) "codefile=".toList = false) :
    ∀ m : ManifestFields, (lines.foldl parseLine m).codefile = m.codefile := by
  induction lines with
  | nil => intro m; rfl
  | cons x rest ih =>
    intro m
    rw [List.foldl_cons, ih (fun y hy => h y (List.mem_cons_of_mem x hy)),
      parseLine_codefile_other m x (h x (List.mem_cons_self x rest))]

theorem scanEntry_not_installable (f : DirEntry) (s : State)
    (h : installable (parseManifest f.content) = false) :
    (scanEntry f s).appCount = s.appCount ∧ (scanEntry f s).appRegistry = s.appRegistry :=
  scanEntry_rejected f s (by unfold acceptedEntry; rw [h, Bool.and_false])

/-- C20: if the lines of one manifest are those of another with a block of
lines inserted, each of which once trimmed begins with none of `name=`,
`description=`, `codefile=`, `enabled=`, then both parse to the same record
and the loop body treats two such entries alike (so one is registered exactly
when the other is, with the same descriptor); more generally the parsed record
is that of the recognised lines alone; and a manifest with no `name=` line, or
with no `codefile=` line, adds no entry. -/
theorem C20_unrecognised_lines_are_ignored (f g : DirEntry) (s : State)
    (before junk after : List (List Char)) :
    ((∀ x ∈ junk, unrecognised x = true) →
      readLines f.content = before ++ after →
      readLines g.content = before ++ junk ++ after →
      parseManifest g.content = parseManifest f.content ∧
      installable (parseManifest g.content) = installable (parseManifest f.content) ∧
      (g.name = f.name → g.isDirectory = f.isDirectory → g.path = f.path →
        scanEntry g s = scanEntry f s)) ∧
    parseManifest f.content
      = ((readLines f.content).filter (fun x => !unrecognised x)).foldl parseLine
          ManifestFields.initial ∧
    ((∀ x ∈ readLines f.content, startsWith (trim x) "name=".toList = false) →
      (scanEntry f s).appCount = s.appCount ∧ (scanEntry f s).appRegistry = s.appRegistry) ∧
    ((∀ x ∈ readLines f.content, startsWith (trim x) "codefile=".toList = false) →
      (scanEntry f s).appCount = s.appCount ∧ (scanEntry f s).appRegistry = s.appRegistry) := by
  refine ⟨?_, (foldl_parseLine_filter _ _).symm, ?_, ?_⟩
  · intro hjunk hf hg
    have hparse : parseManifest g.content = parseManifest f.content := by
      unfold parseManifest
      rw [hf, hg, List.foldl_append, List.foldl_append, List.foldl_append,
        foldl_parseLine_unrecognised junk hjunk]
    refine ⟨hparse, by rw [hparse], ?_⟩
    intro hn hd hp
    unfold scanEntry
    rw [hparse, hn, hd, hp]
  · intro hno
    apply scanEntry_not_installable
    have hname : (parseManifest f.content).name = [] :=
      foldl_parseLine_name _ hno ManifestFields.initial
    simp [installable, hname]
  · intro hno
    apply scanEntry_not_installable
    have hcode : (parseManifest f.content).codefile = [] :=
      foldl_parseLine_codefile _ hno ManifestFields.initial
    simp [installable, hcode]

/-- Witness for C20: the Calc manifest with a comment line and a blank line
inserted after its first line. -/
theorem C20_unrecognised_lines_are_ignored_witness :
    parseManifest
        "name=Calc\n# comment\n\ndescription=Calculator\ncodefile=calc.code\nenabled=true".toList
      = parseManifest calcManifest.content :=
  ((C20_unrecognised_lines_are_ignored calcManifest
    { calcManifest with
      content :=
        "name=Calc\n# comment\n\ndescription=Calculator\ncodefile=calc.code\nenabled=true".toList }
    State.initial ["name=Calc".toList] ["# comment".toList, []]
    ["description=Calculator".toList, "codefile=calc.code".toList, "enabled=true".toList]).1
    (by decide) (by decide) (by decide)).1

/-! ## C21 -/

theorem terminated_mono (s t : State) (hh : t.heap = s.heap)
    (hr : ∀ i : Int, (t.appRegistry i).loaded = true → t.appRegistry i = s.appRegistry i)
    (h : TerminatedBuffers s) : TerminatedBuffers t := by
  intro i hl
  have he := hr i hl
  rw [he] at hl ⊢
  rw [hh]
  exact h i hl

theorem scanEntry_loaded (f : DirEntry) (s : State) (i : Int)
    (h : ((scanEntry f s).appRegistry i).loaded = true) :
    (scanEntry f s).appRegistry i = s.appRegistry i := by
  unfold scanEntry at h ⊢
  split
  · rename_i hm
    rw [if_pos hm] at h
    simp only at h ⊢
    split
    · rename_i hi
      rw [if_pos hi] at h
      simp only [registerApp, logOpen_appRegistry, logOpen_appCount] at h ⊢
      by_cases hEq : i = s.appCount
      · subst hEq; simp at h
      · exact Function.update_noteq hEq _ _
    · rfl
  · rfl

theorem scan_loaded (sd : SDCard) (s : State) (i : Int)
    (h : ((scanForModularApps sd s).appRegistry i).loaded = true) :
    (scanForModularApps sd s).appRegistry i = s.appRegistry i := by
  have key : ∀ entries (t : State),
      (∀ i : Int, (t.appRegistry i).loaded = true → t.appRegistry i = s.appRegistry i) →
      ∀ i : Int, ((scanLoop entries t).appRegistry i).loaded = true →
        (scanLoop entries t).appRegistry i = s.appRegistry i := by
    intro entries t ht
    exact scanLoop_induction
      (fun u => ∀ i : Int, (u.appRegistry i).loaded = true → u.appRegistry i = s.appRegistry i)
      (fun f u hu _ i hi => by
        have h1 := scanEntry_loaded f u i hi
        rw [h1] at hi ⊢
        exact hu i hi) entries t ht
  unfold scanForModularApps at h ⊢
  split
  · rename_i entries hd
    rw [hd] at h
    exact key entries ({ s with appCount := 0 }.logOpen "/apps".toList) (fun _ _ => rfl) i h
  · rfl

theorem scan_terminated (sd : SDCard) (s : State) (h : TerminatedBuffers s) :
    TerminatedBuffers (scanForModularApps sd s) :=
  terminated_mono s _ (scan_heap sd s) (scan_loaded sd s) h

theorem read_length_le (file : CodeFile) : (file.read file.size).length ≤ file.size := by
  unfold CodeFile.read CodeFile.size
  rw [List.length_take]
  omega

/-- The block written by a successful load has `n + 1` cells and ends with the
terminator. -/
theorem loadedHeap_block (h : Heap) (n : Nat) (bytes : List Char) (hb : bytes.length ≤ n) :
    ∃ cells : List (Option Char),
      (loadedHeap h n bytes).live h.next = some cells ∧ cells.length = n + 1 ∧
      cells[n]? = some (some (Char.ofNat 0)) := by
  refine ⟨(bytes.map some ++ (List.replicate (n + 1) none).drop bytes.length).set n
    (some (Char.ofNat 0)), by simp [loadedHeap], ?_, ?_⟩
  · simp; omega
  · rw [List.getElem?_set_self]
    simp; omega

theorem loadedHeap_live_other (h : Heap) (n : Nat) (bytes : List Char) (p : Nat)
    (hp : p ≠ h.next) : (loadedHeap h n bytes).live p = h.live p := by
  simp [loadedHeap, Function.update_noteq hp]

theorem loadAppCode_terminated (env : Env) (i : Int) (s : State) (hO : Owned s)
    (h : TerminatedBuffers s) : TerminatedBuffers (loadAppCode env i s).2 := by
  refine loadAppCode_elim env i s (fun r => TerminatedBuffers r.2) ?_ ?_ ?_ ?_ ?_
  · intro _; exact h
  · intro _ _; exact h
  · intro _ _; exact terminated_mono s _ rfl (fun _ _ => rfl) h
  · intro _ hl
    refine terminated_mono s _ rfl ?_ h
    intro j hj
    by_cases hji : j = i
    · subst hji; simp [hl] at hj
    · simp [Function.update_noteq hji]
  · intro file _ _ _ hsz _ j hj
    by_cases hji : j = i
    · subst hji
      obtain ⟨cells, hc1, hc2, hc3⟩ :=
        loadedHeap_block s.heap file.size (file.read file.size) (read_length_le file)
      simp only [setApp_appRegistry, Function.update_same, setApp_heap]
      exact ⟨hsz, s.heap.next, cells, rfl, hc1, hc2, hc3⟩
    · simp only [setApp_appRegistry, Function.update_noteq hji, logOpen_appRegistry,
        setApp_heap] at hj ⊢
      obtain ⟨hs1, p, cells, hp, hlive, hlen, hterm⟩ := h j hj
      refine ⟨hs1, p, cells, hp, ?_, hlen, hterm⟩
      rw [loadedHeap_live_other _ _ _ _ (Nat.ne_of_lt (hO.1 j p hp).1)]
      exact hlive

theorem unloadAppCode_terminated (i : Int) (s : State) (hO : Owned s)
    (h : TerminatedBuffers s) : TerminatedBuffers (unloadAppCode i s) := by
  refine unloadAppCode_elim i s TerminatedBuffers ?_ ?_ ?_
  · intro _; exact h
  · intro p _ _ hb j hj
    by_cases hji : j = i
    · subst hji; simp at hj
    · simp only [setApp_appRegistry, Function.update_noteq hji, setApp_heap] at hj ⊢
      obtain ⟨hs1, q, cells, hq, hlive, hlen, hterm⟩ := h j hj
      have hqp : q ≠ p := by
        intro hEq; subst hEq; exact hji (hO.2.1 j i q hq hb)
      refine ⟨hs1, q, cells, hq, ?_, hlen, hterm⟩
      simpa [Heap.free, Function.update_noteq hqp] using hlive
  · intro _ _ _
    refine terminated_mono s _ rfl ?_ h
    intro j hj
    by_cases hji : j = i
    · subst hji; simp at hj
    · simp [Function.update_noteq hji]

theorem step_terminated (s : State) (a : Action) (hO : Owned s) (h : TerminatedBuffers s) :
    TerminatedBuffers (step s a) := by
  cases a with
  | scan sd => exact scan_terminated sd s h
  | load env i => exact loadAppCode_terminated env i s hO h
  | unload i => exact unloadAppCode_terminated i s hO h
  | launch env i =>
    show TerminatedBuffers (launchModularApp env i s)
    rw [launchModularApp_eq]
    split
    · exact terminated_mono _ _ rfl (fun _ _ => rfl) (loadAppCode_terminated env i s hO h)
    · exact loadAppCode_terminated env i s hO h
  | back sd =>
    show TerminatedBuffers (scanForModularApps sd (closeCurrentApp s))
    apply scan_terminated
    unfold closeCurrentApp
    split
    · exact terminated_mono _ _ rfl (fun _ _ => rfl) (unloadAppCode_terminated _ s hO h)
    · exact h

theorem reachable_terminated (s : State) (h : Reachable s) : TerminatedBuffers s := by
  induction h with
  | initial => intro i hl; simp [State.initial, ModularApp.zero] at hl
  | next s a hs ih => exact step_terminated s a (reachable_owned s hs) ih

theorem terminator_store_in_bounds (h : Heap) (file : CodeFile) :
    ∃ cells : List (Option Char),
      ((h.malloc true (file.size + 1)).2.storeBytes h.next (file.read file.size)).live h.next
        = some cells ∧ file.size < cells.length := by
  have hb := read_length_le file
  refine ⟨(file.read file.size).map some
    ++ (List.replicate (file.size + 1) none).drop (file.read file.size).length,
    by simp [Heap.malloc, Heap.storeBytes], ?_⟩
  simp; omega

/-- C22: in every reachable state, every loaded registry entry has
`codeSize ≤ MAX_APP_CODE_SIZE = 50000` and holds, alone, a live block of exactly
`codeSize + 1` cells whose cell at offset `codeSize` is the byte 0; and in every
call of `loadAppCode` the block that receives the terminator at offset
`fileSize` has more than `fileSize` cells, so the store is inside the
allocation. -/
theorem C22_loaded_buffer_sized_and_terminated (s : State) (i : Int) (hs : Reachable s)
    (hl : (s.appRegistry i).loaded = true) :
    MAX_APP_CODE_SIZE = 50000 ∧
    (s.appRegistry i).codeSize ≤ MAX_APP_CODE_SIZE ∧
    (∃ (p : Nat) (cells : List (Option Char)),
      (s.appRegistry i).codeBuffer = some p ∧ s.heap.live p = some cells ∧
      cells.length = (s.appRegistry i).codeSize + 1 ∧
      cells[(s.appRegistry i).codeSize]? = some (some (Char.ofNat 0)) ∧
      ∀ j : Int, (s.appRegistry j).codeBuffer = some p → j = i) ∧
    (∀ (h : Heap) (file : CodeFile), ∃ cells : List (Option Char),
      ((h.malloc true (file.size + 1)).2.storeBytes h.next (file.read file.size)).live h.next
        = some cells ∧ file.size < cells.length) := by
  obtain ⟨h1, p, cells, hp, hlive, hlen, hterm⟩ := reachable_terminated s hs i hl
  exact ⟨rfl, h1, ⟨p, cells, hp, hlive, hlen, hterm,
    fun j hj => (reachable_owned s hs).2.1 j i p hj hp⟩, terminator_store_in_bounds⟩

/-- Witness for C22: entry 0 of the sample card after a launch holds six
cells for its five bytes. -/
theorem C22_loaded_buffer_sized_and_terminated_witness :
    ((launchModularApp smallEnv 0
      (scanForModularApps (sampleCard smallCode) State.initial)).appRegistry 0).codeSize
        ≤ MAX_APP_CODE_SIZE :=
  (C22_loaded_buffer_sized_and_terminated
    (launchModularApp smallEnv 0 (scanForModularApps (sampleCard smallCode) State.initial)) 0
    (Reachable.next _ (Action.launch smallEnv 0)
      (Reachable.next _ (Action.scan (sampleCard smallCode)) Reachable.initial))
    (by decide)).2.1

end ModularAppLoader
